import Mathlib

/-!
Shallow embedding of the feed-driven newsletter delivery pipeline of the
`newsletter-and-contact-system` repository, and proofs about it.

Embedded source files:
- `src/utils/retry.js` (`withRetry`, `isRetryableError`, `CircuitBreaker`)
- `src/newsletter/backend/processor.js` (`alreadySent`, `processQueueBatch`)
- `src/email/gmailProvider.js` (`GmailProvider.sendBatchEmail` accounting)
- `src/utils/feedParser.js` (the regex-based feed parser)

JavaScript strings are modeled as Lean `String`/`List Char` (all inputs
considered are ASCII/BMP, where UTF-16 code-unit indexing and code-point
indexing coincide).  JavaScript runtime builtins that the code calls
(`Date`, `JSON.parse`, the WHATWG `URL` constructor) are modeled explicitly
and are documented at their definitions.  Asynchronous effects (timers,
SMTP, KV writes) are modeled by explicit parameters and returned effect
descriptions; within one invocation the clock is a single `now : Nat`
(milliseconds).
-/

namespace Newsletter

/-! ## JavaScript string primitives -/

/-- JS `\s` character class (also the set trimmed by
`String.prototype.trim`): ASCII whitespace, NBSP, BOM, the Unicode
space-separator block, and the line/paragraph separators. -/
def jsIsSpace (c : Char) : Bool :=
  c == ' ' || c == '\t' || c == '\n' || c == '\r' || c == '\x0b' || c == '\x0c' ||
  c == '\xa0' || c == '\ufeff' || c == '\u1680' || ('\u2000' ≤ c && c ≤ '\u200a') ||
  c == '\u2028' || c == '\u2029' || c == '\u202f' || c == '\u205f' || c == '\u3000'

/-- JS `String.prototype.trim` on a character list. -/
def jsTrimList (s : List Char) : List Char :=
  ((s.dropWhile jsIsSpace).reverse.dropWhile jsIsSpace).reverse

/-- JS `String.prototype.trim`. -/
def jsTrim (s : String) : String :=
  String.mk (jsTrimList s.data)

/-- Case-sensitive "the first list starts with the second". -/
def listStartsWith : List Char → List Char → Bool
  | _, [] => true
  | [], _ :: _ => false
  | c :: cs, p :: ps => c == p && listStartsWith cs ps

/-- JS `String.prototype.includes` on character lists (case-sensitive). -/
def listContainsSub : List Char → List Char → Bool
  | [], pat => pat.isEmpty
  | c :: cs, pat => listStartsWith (c :: cs) pat || listContainsSub cs pat

/-- JS `String.prototype.includes`. -/
def strContains (s pat : String) : Bool :=
  listContainsSub s.data pat.data

/-- Case-insensitive "the first list starts with the second"
(the `i` regex flag; ASCII folding via `Char.toLower`). -/
def ciStartsWith : List Char → List Char → Bool
  | _, [] => true
  | [], _ :: _ => false
  | c :: cs, p :: ps => c.toLower == p.toLower && ciStartsWith cs ps

/-- JS `\w` character class `[A-Za-z0-9_]`. -/
def isWordCharJS (c : Char) : Bool :=
  ('a' ≤ c && c ≤ 'z') || ('A' ≤ c && c ≤ 'Z') || ('0' ≤ c && c ≤ '9') || c == '_'

/-- Regex `\b` between a previous character and the rest of the input:
a boundary holds iff exactly one side is a word character (end of input
counts as a non-word side). -/
def wordBoundaryAfter (prev : Char) (rest : List Char) : Bool :=
  match rest with
  | [] => isWordCharJS prev
  | c :: _ => isWordCharJS prev != isWordCharJS c

/-! ## `src/utils/retry.js` — retry executor -/

/-- A thrown JS `Error` as observed by `isRetryableError`: its `message`,
its `status` property and its `response.status` property.  A `0` models an
absent (or otherwise falsy) numeric property, exactly as the source's
truthiness guards treat it. -/
structure JsError where
  message : String := ""
  status : Nat := 0
  responseStatus : Nat := 0
deriving DecidableEq

/-- The retry options object after `{ ...DEFAULT_RETRY_CONFIG, ...options }`.
Delay-only fields (`initialDelay`, `maxDelay`, `backoffMultiplier`,
`jitter`) are kept for fidelity; they feed `setTimeout` only and do not
influence the returned envelope. -/
structure RetryConfig where
  maxAttempts : Nat := 3
  initialDelay : Nat := 1000
  maxDelay : Nat := 30000
  backoffMultiplier : Nat := 2
  jitter : Bool := true
  retryableErrors : List String :=
    ["ETIMEDOUT", "ECONNRESET", "ECONNREFUSED", "ENOTFOUND", "NetworkError", "TimeoutError"]
  retryableStatusCodes : List Nat := [408, 429, 500, 502, 503, 504, 522, 524]

/-- `isRetryableError(error, config)` from `src/utils/retry.js`. -/
def isRetryableError (error : Option JsError) (config : RetryConfig) : Bool :=
  match error with
  | none => false
  | some err =>
    if config.retryableErrors.any (fun msg => strContains err.message msg) then true
    else if err.status != 0 && config.retryableStatusCodes.contains err.status then true
    else if err.responseStatus != 0 && config.retryableStatusCodes.contains err.responseStatus then
      true
    else false

/-- The result/error envelope returned by `withRetry`. -/
structure RetryResult (α : Type) where
  success : Bool
  result : Option α := none
  error : Option JsError := none
  attempts : Nat
deriving DecidableEq

/-- The `for (let attempt = 1; attempt <= maxAttempts; attempt++)` loop of
`withRetry`.  `fuel` equals `maxAttempts - attempt + 1` at every entry; the
second component counts how many times the operation was invoked. -/
def withRetryGo (fn : Nat → Except JsError α) (config : RetryConfig) :
    Nat → Nat → Option JsError → Nat → RetryResult α × Nat
  | 0, _, lastError, invoked =>
    ({ success := false, error := lastError, attempts := config.maxAttempts }, invoked)
  | fuel + 1, attempt, _, invoked =>
    match fn attempt with
    | .ok result => ({ success := true, result := some result, attempts := attempt }, invoked + 1)
    | .error e =>
      if attempt == config.maxAttempts then
        ({ success := false, error := some e, attempts := config.maxAttempts }, invoked + 1)
      else if !isRetryableError (some e) config then
        ({ success := false, error := some e, attempts := config.maxAttempts }, invoked + 1)
      else
        withRetryGo fn config fuel (attempt + 1) (some e) (invoked + 1)

/-- `withRetry(fn, options)` together with the number of times `fn` ran. -/
def withRetryCount (fn : Nat → Except JsError α) (config : RetryConfig) :
    RetryResult α × Nat :=
  withRetryGo fn config config.maxAttempts 1 none 0

/-- `withRetry(fn, options)` from `src/utils/retry.js`. -/
def withRetry (fn : Nat → Except JsError α) (config : RetryConfig) : RetryResult α :=
  (withRetryCount fn config).1

/-! ## `src/utils/retry.js` — circuit breaker -/

inductive CBState where
  | closed
  | opened
  | halfOpen
deriving DecidableEq

/-- The mutable fields of a `CircuitBreaker` instance. -/
structure CircuitBreaker where
  failureThreshold : Nat := 5
  resetTimeout : Nat := 60000
  state : CBState := .closed
  failures : Nat := 0
  nextAttempt : Nat := 0
deriving DecidableEq

namespace CircuitBreaker

/-- `new CircuitBreaker(options)`; `nextAttempt` starts at `Date.now()`. -/
def make (failureThreshold resetTimeout now : Nat) : CircuitBreaker :=
  { failureThreshold := failureThreshold, resetTimeout := resetTimeout,
    state := .closed, failures := 0, nextAttempt := now }

/-- `onSuccess()`. -/
def onSuccess (cb : CircuitBreaker) : CircuitBreaker :=
  { cb with failures := 0, state := if cb.state = .halfOpen then .closed else cb.state }

/-- `onFailure()`; `now` is the `Date.now()` read inside it. -/
def onFailure (cb : CircuitBreaker) (now : Nat) : CircuitBreaker :=
  let f := cb.failures + 1
  if f ≥ cb.failureThreshold then
    { cb with failures := f, state := .opened, nextAttempt := now + cb.resetTimeout }
  else
    { cb with failures := f }

/-- What one `execute(fn)` call did: rejected without running `fn`,
returned `fn`'s value, or re-threw `fn`'s error. -/
inductive ExecOutcome (α : Type) where
  | rejected
  | returned (a : α)
  | threw (e : JsError)
deriving DecidableEq

/-- `execute(fn)`: the wrapped function's behaviour is passed in as
`fnResult`; the third component records whether `fn` was invoked. -/
def execute (cb : CircuitBreaker) (now : Nat) (fnResult : Except JsError α) :
    CircuitBreaker × ExecOutcome α × Bool :=
  if cb.state = .opened ∧ now < cb.nextAttempt then
    (cb, .rejected, false)
  else
    let cb1 := if cb.state = .opened then { cb with state := .halfOpen } else cb
    match fnResult with
    | .ok a => (onSuccess cb1, .returned a, true)
    | .error e => (onFailure cb1 now, .threw e, true)

/-- State evolution under a sequence of `execute` calls whose wrapped
function always throws `e`, at the given sequence of clock readings. -/
def execFailures (cb : CircuitBreaker) (times : List Nat) (e : JsError) : CircuitBreaker :=
  times.foldl (fun c t => (execute c t (Except.error e : Except JsError Unit)).1) cb

end CircuitBreaker

/-! ## KV store and `alreadySent` (`src/newsletter/backend/processor.js`) -/

/-- A KV operation, recorded so that read-only behaviour is expressible. -/
inductive KVOp where
  | get (key : String)
  | put (key value : String)
  | del (key : String)
deriving DecidableEq

def KVOp.isWrite : KVOp → Bool
  | .get _ => false
  | .put _ _ => true
  | .del _ => true

/-- The durable key-value store visible to one invocation. -/
def KVStore := List (String × String)

/-- `env.KV.get(key)` (`null` for a missing key). -/
def kvGet (kv : KVStore) (key : String) : Option String :=
  (kv.find? (fun p => p.1 == key)).map (·.2)

/-- Uppercase hexadecimal digit. -/
def hexDigitUpper (n : Nat) : Char :=
  if n < 10 then Char.ofNat ('0'.toNat + n) else Char.ofNat ('A'.toNat + n - 10)

/-- Model of the JS builtin `encodeURIComponent` for one character:
unreserved characters (`A–Z a–z 0–9 - _ . ! ~ * ' ( )`) pass through,
everything else is percent-encoded as its UTF-8 bytes. -/
def encodeURIComponentChar (c : Char) : List Char :=
  if ('a' ≤ c && c ≤ 'z') || ('A' ≤ c && c ≤ 'Z') || ('0' ≤ c && c ≤ '9') ||
      c == '-' || c == '_' || c == '.' || c == '!' || c == '~' || c == '*' ||
      c == '\'' || c == '(' || c == ')' then
    [c]
  else
    (String.utf8EncodeChar c).foldr
      (fun b acc => '%' :: hexDigitUpper (b.toNat / 16) :: hexDigitUpper (b.toNat % 16) :: acc) []

/-- Model of the JS builtin `encodeURIComponent`. -/
def encodeURIComponent (s : String) : String :=
  String.mk (s.data.foldr (fun c acc => encodeURIComponentChar c ++ acc) [])

/-- The two key-prefix configuration values read by the sent-tracker. -/
structure SentConfig where
  prefixNewsletterSent : String
  prefixNewsletterSentUrl : String

/-- `alreadySent(env, config, postId, normUrl)` from
`src/newsletter/backend/processor.js`, together with the list of KV
operations it performs (its two concurrent `env.KV.get` reads). -/
def alreadySentTrace (config : SentConfig) (kv : KVStore) (postId normUrl : String) :
    Bool × List KVOp :=
  let postIdKey := config.prefixNewsletterSent ++ postId
  let urlKey := config.prefixNewsletterSentUrl ++ encodeURIComponent normUrl
  let hasPostIdKey := (kvGet kv postIdKey).isSome
  let hasUrlKey := (kvGet kv urlKey).isSome
  (if hasPostIdKey && hasUrlKey then true else false, [KVOp.get postIdKey, KVOp.get urlKey])

/-- The boolean returned by `alreadySent`. -/
def alreadySent (config : SentConfig) (kv : KVStore) (postId normUrl : String) : Bool :=
  (alreadySentTrace config kv postId normUrl).1

/-! ## JS number arithmetic as exercised by the provider accounting -/

/-- A JS number as produced by the provider's counters: a natural number
or `NaN` (which arises from adding `undefined`). -/
inductive JsNum where
  | num (n : Nat)
  | nan
deriving DecidableEq

/-- JS `x + y` where `y` may be `undefined`: adding `undefined` or `NaN`
yields `NaN`. -/
def JsNum.addOpt : JsNum → Option JsNum → JsNum
  | _, none => .nan
  | .nan, some _ => .nan
  | .num _, some .nan => .nan
  | .num a, some (.num b) => .num (a + b)

/-- JS `x > 0` (false for `NaN`). -/
def JsNum.gtZero : JsNum → Bool
  | .num n => decide (0 < n)
  | .nan => false

/-- JS `x === 0` (false for `NaN`). -/
def JsNum.eqZero : JsNum → Bool
  | .num n => n == 0
  | .nan => false

/-- `Array.prototype.slice` index coercion (`ToIntegerOrInfinity`):
`NaN` coerces to `0`. -/
def JsNum.toIndex : JsNum → Nat
  | .num n => n
  | .nan => 0

/-! ## `src/email/gmailProvider.js` — `GmailProvider.sendBatchEmail` -/

/-- What the newsletter processor receives back from
`EmailFactory.sendNewsletter` (the provider's `sendBatchEmail` return
object).  `none` models an absent (`undefined`) field. -/
structure SendResult where
  success : Bool
  totalSent : Option JsNum := none
  totalFailed : Option JsNum := none
  error : Option String := none
deriving DecidableEq

/-- The `for (let i = 0; i < recipients.length; i += batchSize)` chunking
loop of `sendBatchEmail` (the source always calls it with `batchSize = 50`,
so the `size = 0` non-termination of the JS loop is out of scope).  The
fuel is at least the list length at every call, so it never runs out. -/
def chunkListGo (size : Nat) : List α → Nat → List (List α)
  | [], _ => []
  | _ :: _, 0 => []
  | x :: xs, fuel + 1 => (x :: xs).take size :: chunkListGo size (xs.drop (size - 1)) fuel

def chunkList (size : Nat) (l : List α) : List (List α) :=
  chunkListGo size l l.length

/-- Accumulator of the `sendBatchEmail` batch loop. -/
structure GmailAcc where
  cb : CircuitBreaker
  totalSent : JsNum := .num 0
  totalFailed : JsNum := .num 0

/-- The batch loop of `GmailProvider.sendBatchEmail`.  Each iteration's
`circuitBreaker.execute(() => withRetry(...))` resolves to the `withRetry`
envelope — `withRetry` never throws — so the breaker only ever records
successes and the `.catch` handler is dead code; `envSuccess i` is the
envelope's `success` field for batch `i` (whether SMTP delivery succeeded
within the inner retry budget).  The envelope has no `count` property, so
`results.totalSent += batchResult.count` adds `undefined` and produces
`NaN`; likewise for `totalFailed`. -/
def gmailBatchLoop (now : Nat) (envSuccess : Nat → Bool) :
    List (List String) → Nat → GmailAcc → GmailAcc
  | [], _, acc => acc
  | _batch :: rest, i, acc =>
    let cb' := (CircuitBreaker.execute acc.cb now (Except.ok (envSuccess i))).1
    if envSuccess i then
      gmailBatchLoop now envSuccess rest (i + 1)
        { cb := cb', totalSent := acc.totalSent.addOpt none, totalFailed := acc.totalFailed }
    else
      let acc' :=
        { cb := cb', totalSent := acc.totalSent, totalFailed := acc.totalFailed.addOpt none }
      if cb'.state = .opened then acc'
      else gmailBatchLoop now envSuccess rest (i + 1) acc'

namespace GmailProvider

/-- `GmailProvider.sendBatchEmail({recipients, ...})`: chunks recipients
into batches of 50, runs the batch loop, and reports
`success: results.totalFailed === 0` with the accumulated counters.
The provider's breaker is constructed per `sendNewsletter` call with
threshold 3 and reset timeout 60000. -/
def sendBatchEmail (now : Nat) (envSuccess : Nat → Bool) (recipients : List String) :
    SendResult :=
  let batches := chunkList 50 recipients
  let acc := gmailBatchLoop now envSuccess batches 0
    { cb := CircuitBreaker.make 3 60000 now }
  { success := acc.totalFailed.eqZero,
    totalSent := some acc.totalSent,
    totalFailed := some acc.totalFailed,
    error := none }

end GmailProvider

/-! ## `src/newsletter/backend/processor.js` — `processQueueBatch` -/

/-- `queue.status` values.  The source uses the strings `'pending'`,
`'in-progress'` and `'completed'`. -/
inductive QStatus where
  | pending
  | inProgress
  | completed
deriving DecidableEq

/-- Order used to express "status never regresses". -/
def QStatus.rank : QStatus → Nat
  | .pending => 0
  | .inProgress => 1
  | .completed => 2

/-- The `queue.stats` object written after a successful batch. -/
structure QStats where
  total : Nat
  sent : Nat
  failed : Nat
  remaining : Nat
deriving DecidableEq

/-- A persisted DeliveryQueue record.  `nextSendAt` is the epoch-millisecond
reading of the stored ISO timestamp, with `0` modeling the falsy empty
string (`queue.nextSendAt ? new Date(queue.nextSendAt).getTime() : 0`).
`sentTo`/`failedRecipients` are taken as already-initialized lists,
mirroring the `queue.sentTo = queue.sentTo || []` normalization performed
at the top of `processQueueBatch`. -/
structure Queue where
  subscribers : List String
  sentTo : List String := []
  failedRecipients : List String := []
  status : QStatus := .pending
  nextSendAt : Nat := 0
  batchRetryCount : Nat := 0
  lastError : Option String := none
  lastBatchSentAt : Option Nat := none
  stats : Option QStats := none
deriving DecidableEq

/-- The configuration values `processQueueBatch` reads. -/
structure ProcConfig where
  batchSize : Nat
  batchWaitMinutes : Nat

/-- What one `processQueueBatch` call returned and did to storage:
`queue` is the in-memory queue object after all mutations; `finalized`
records that `finalizeQueue` ran (sent-records written, queue key
deleted); otherwise a non-waiting call ends in `env.KV.put(queueKey, queue)`. -/
structure ProcResult where
  queue : Queue
  finalized : Bool
  success : Bool
  waiting : Bool := false
  completed : Bool := false
  error : Option JsError := none
deriving DecidableEq

/-- JS `x || dflt` for an optional string (empty string is falsy). -/
def jsOrStr (x : Option String) (dflt : String) : String :=
  match x with
  | some s => if s == "" then dflt else s
  | none => dflt

/-- The operation handed to `withRetry` inside `processQueueBatch`: call
`EmailFactory.sendNewsletter` (whose per-attempt result is the input
`prov`) and throw when it reports failure. -/
def sendOp (prov : Nat → SendResult) : Nat → Except JsError SendResult :=
  fun attempt =>
    let sendResult := prov attempt
    if sendResult.success then .ok sendResult
    else .error { message := jsOrStr sendResult.error "Failed to send emails" }

/-- The retry options `processQueueBatch` passes to `withRetry`
(spread over `DEFAULT_RETRY_CONFIG`). -/
def procRetryConfig : RetryConfig :=
  { maxAttempts := 3, initialDelay := 5000, backoffMultiplier := 2, maxDelay := 30000 }

/-- The slice
`queue.subscribers.slice(offset, Math.min(offset + config.BATCH_SIZE, total))`
with `offset = queue.sentTo.length`. -/
def nextBatchOf (config : ProcConfig) (queue : Queue) : List String :=
  (queue.subscribers.drop queue.sentTo.length).take
    (min (queue.sentTo.length + config.batchSize) queue.subscribers.length - queue.sentTo.length)

/-- The "track successfully sent recipients" block of `processQueueBatch`'s
success path: when `totalSent` is present, the first `totalSent` entries of
the batch are appended to `sentTo` (only when `totalSent > 0` — `0` and
`NaN` append nothing) and, when `totalFailed > 0`, the remainder to
`failedRecipients`; when `totalSent` is absent the whole batch is appended
to `sentTo`. -/
def applyProviderCounts (queue : Queue) (nextBatch : List String) (sentResult : SendResult) :
    Queue :=
  match sentResult.totalSent with
  | some ts =>
    let q := if ts.gtZero then
        { queue with sentTo := queue.sentTo ++ nextBatch.take ts.toIndex }
      else queue
    match sentResult.totalFailed with
    | some tf =>
      if tf.gtZero then
        { q with failedRecipients := q.failedRecipients ++ nextBatch.drop ts.toIndex }
      else q
    | none => q
  | none => { queue with sentTo := queue.sentTo ++ nextBatch }

/-- `processQueueBatch(env, config, queueKey, queue)` from
`src/newsletter/backend/processor.js`.  `now` is the invocation's clock
(`Date.now()`; the source reads the clock again after the awaited retries,
which this single-instant model identifies with the first reading), and
`prov attempt` is the provider response `EmailFactory.sendNewsletter`
produces on retry attempt `attempt`. -/
def processQueueBatch (config : ProcConfig) (now : Nat) (prov : Nat → SendResult)
    (queue : Queue) : ProcResult :=
  let nextSendAtMs := queue.nextSendAt
  if nextSendAtMs ≠ 0 ∧ now < nextSendAtMs then
    { queue := queue, finalized := false, success := true, waiting := true }
  else
    let offset := queue.sentTo.length
    let total := queue.subscribers.length
    if total = 0 ∨ offset ≥ total then
      { queue := queue, finalized := true, success := true, completed := true }
    else
      let nextBatch := nextBatchOf config queue
      if nextBatch.isEmpty then
        { queue := queue, finalized := true, success := true, completed := true }
      else
        let result := withRetry (sendOp prov) procRetryConfig
        if ¬ result.success then
          let retried := queue.batchRetryCount + 1
          if retried ≥ 3 then
            let q :=
              { queue with
                failedRecipients := queue.failedRecipients ++ nextBatch,
                sentTo := queue.sentTo ++ nextBatch,
                batchRetryCount := 0,
                lastError := some (jsOrStr (result.error.map (·.message)) "Unknown error") }
            { queue := q, finalized := false, success := false, error := result.error }
          else
            let q := { queue with batchRetryCount := retried, nextSendAt := now + 5 * 60 * 1000 }
            { queue := q, finalized := false, success := false, error := result.error }
        else
          -- a success envelope always carries its result; the `getD` default is dead code
          let sentResult := result.result.getD { success := true }
          let q1 := applyProviderCounts queue nextBatch sentResult
          let q2 := { q1 with batchRetryCount := 0 }
          let status : QStatus := if q2.sentTo.length ≥ total then .completed else .inProgress
          let q3 :=
            { q2 with
              status := status,
              lastBatchSentAt := some now,
              stats := some
                { total := total, sent := q2.sentTo.length,
                  failed := q2.failedRecipients.length,
                  remaining := total - q2.sentTo.length } }
          let q4 :=
            if status ≠ .completed then
              { q3 with nextSendAt := now + config.batchWaitMinutes * 60 * 1000 }
            else q3
          if status = .completed then
            { queue := q4, finalized := true, success := true }
          else
            { queue := q4, finalized := false, success := true }

/-- Iterated `processQueueBatch` over a list of invocation inputs
(clock reading and provider behaviour per scheduled run). -/
def processQueueRun (config : ProcConfig) (queue : Queue) :
    List (Nat × (Nat → SendResult)) → Queue
  | [] => queue
  | (now, prov) :: rest =>
    processQueueRun config (processQueueBatch config now prov queue).queue rest

/-! ## `src/utils/feedParser.js` — regex primitives

The parser works by scanning with a handful of fixed regular expressions.
Each is emulated by a dedicated scanner with JS semantics: matching is
attempted at every successive start position, case-insensitively where the
source uses the `i` flag; `[^>]*` and friends are deterministic, and the
lazy capture `([\s\S]*?)` before a closing tag matches up to the first
occurrence of that closing tag.  Scanners that restart after a match use a
character count as fuel; the fuel is at least the remaining input length
at every call, so it never runs out before the input does. -/

/-- Case-sensitive split at the first occurrence of `pat`: characters
before it and characters after it. -/
def splitAtFirstSub (pat : List Char) : List Char → Option (List Char × List Char)
  | [] => if pat.isEmpty then some ([], []) else none
  | c :: cs =>
    if listStartsWith (c :: cs) pat then some ([], (c :: cs).drop pat.length)
    else
      match splitAtFirstSub pat cs with
      | some (pre, post) => some (c :: pre, post)
      | none => none

/-- One match of the block pattern `<tag\b[^>]*>([\s\S]*?)</tag>`. -/
structure XmlTagMatch where
  full : List Char
  attrs : List Char
  inner : List Char
deriving DecidableEq

/-- Try to match the opening part `<base CLS \b [^>]*>` exactly at the
start of `s`, where `CLS` is an optional regex character class (one
character, case-insensitive) that arises when a candidate path such as
`guid[isPermaLink="true"]` is interpolated into the pattern.  Returns the
`[^>]*` capture and the rest after `>`. -/
def matchOpenTag (base : List Char) (cls : Option (List Char)) (s : List Char) :
    Option (List Char × List Char) :=
  if ciStartsWith s ('<' :: base) then
    let afterBase := s.drop (base.length + 1)
    let step : Option (Char × List Char) :=
      match cls with
      | none =>
        match base.getLast? with
        | some lastc => some (lastc, afterBase)
        | none => none
      | some clsChars =>
        match afterBase with
        | c :: rest =>
          if clsChars.any (fun k => k.toLower == c.toLower) then some (c, rest) else none
        | [] => none
    match step with
    | none => none
    | some (prevc, rest1) =>
      if wordBoundaryAfter prevc rest1 then
        let attrs := rest1.takeWhile (fun c => c != '>')
        match rest1.drop attrs.length with
        | '>' :: rest3 => some (attrs, rest3)
        | _ => none
      else none
  else none

/-- Scan for the first occurrence of the closing pattern `</base CLS >`
(case-insensitive), returning the characters before it and after it. -/
def findCloseTag (base : List Char) (cls : Option (List Char)) :
    List Char → Option (List Char × List Char)
  | [] => none
  | c :: cs =>
    let here : Option (List Char) :=
      if ciStartsWith (c :: cs) ('<' :: '/' :: base) then
        let after := (c :: cs).drop (base.length + 2)
        match cls with
        | none =>
          match after with
          | '>' :: rest => some rest
          | _ => none
        | some clsChars =>
          match after with
          | k :: '>' :: rest =>
            if clsChars.any (fun q => q.toLower == k.toLower) then some rest else none
          | _ => none
      else none
    match here with
    | some rest => some ([], rest)
    | none =>
      match findCloseTag base cls cs with
      | some (pre, rest) => some (c :: pre, rest)
      | none => none

/-- Try the whole block pattern exactly at the start of `s`; on success
also return the rest of the input after the match (the `g` flag resumes
scanning there). -/
def matchTagAt (base : List Char) (cls : Option (List Char)) (s : List Char) :
    Option (XmlTagMatch × List Char) :=
  match matchOpenTag base cls s with
  | none => none
  | some (attrs, afterOpen) =>
    match findCloseTag base cls afterOpen with
    | none => none
    | some (inner, rest) =>
      some ({ full := s.take (s.length - rest.length), attrs := attrs, inner := inner }, rest)

/-- All matches of the block pattern (flags `gi`). -/
def scanTagMatches (base : List Char) (cls : Option (List Char)) :
    List Char → Nat → List XmlTagMatch
  | _, 0 => []
  | [], _ => []
  | c :: cs, fuel + 1 =>
    match matchTagAt base cls (c :: cs) with
    | some (m, rest) => m :: scanTagMatches base cls rest fuel
    | none => scanTagMatches base cls cs fuel

def findTagMatches (base : List Char) (cls : Option (List Char)) (s : List Char) :
    List XmlTagMatch :=
  scanTagMatches base cls s s.length

/-- First match of the block pattern (flag `i` only). -/
def firstTagMatch (base : List Char) (cls : Option (List Char)) (s : List Char) :
    Option XmlTagMatch :=
  (findTagMatches base cls s).head?

def isQuote (c : Char) : Bool :=
  c == '"' || c == '\''

/-- Try the attribute pattern `name=["']([^"']+)["']` (flag `i`) exactly at
the start of `s`. -/
def matchAttrAt (name : List Char) (s : List Char) : Option (List Char) :=
  if ciStartsWith s (name ++ ['=']) then
    match s.drop (name.length + 1) with
    | q :: rest =>
      if isQuote q then
        let val := rest.takeWhile (fun c => !isQuote c)
        if val.isEmpty then none
        else
          match rest.drop val.length with
          | q2 :: _ => if isQuote q2 then some val else none
          | [] => none
      else none
    | [] => none
  else none

/-- First match of the attribute pattern anywhere in `s` (its capture). -/
def findAttrValue (name : List Char) : List Char → Option (List Char)
  | [] => none
  | c :: cs =>
    match matchAttrAt name (c :: cs) with
    | some v => some v
    | none => findAttrValue name cs

/-- All captures of the Atom link pattern `<link\b([^>]*)\/?>(?:<\/link>)?`
(flags `gi`): the greedy `[^>]*` keeps any trailing `/`, and an
immediately following `</link>` is consumed before scanning resumes. -/
def scanLinkAttrs : List Char → Nat → List (List Char)
  | _, 0 => []
  | [], _ => []
  | c :: cs, fuel + 1 =>
    match matchOpenTag "link".data none (c :: cs) with
    | some (attrs, afterOpen) =>
      let rest := if ciStartsWith afterOpen "</link>".data then afterOpen.drop 7 else afterOpen
      attrs :: scanLinkAttrs rest fuel
    | none => scanLinkAttrs cs fuel

def findLinkAttrs (s : List Char) : List (List Char) :=
  scanLinkAttrs s s.length

/-- First capture of `<enclosure\b([^>]*)\/?>` (flag `i`) anywhere in `s`. -/
def findFirstOpenAttrs (base : List Char) : List Char → Nat → Option (List Char)
  | [], _ => none
  | _, 0 => none
  | c :: cs, fuel + 1 =>
    match matchOpenTag base none (c :: cs) with
    | some (attrs, _) => some attrs
    | none => findFirstOpenAttrs base cs fuel

/-! ## `src/utils/feedParser.js` — `cleanText` pipeline -/

/-- `text.replace(/<!\[CDATA\[([\s\S]*?)\]\]>/g, '$1')`. -/
def stripCdata : List Char → Nat → List Char
  | [], _ => []
  | s, 0 => s
  | c :: cs, fuel + 1 =>
    if listStartsWith (c :: cs) "<![CDATA[".data then
      match splitAtFirstSub "]]>".data ((c :: cs).drop 9) with
      | some (inner, rest) => inner ++ stripCdata rest fuel
      | none => c :: stripCdata cs fuel
    else c :: stripCdata cs fuel

/-- `s.replace(new RegExp(pat, 'gi'), repl)` for a pattern without regex
metacharacters (the named entities). -/
def replaceAllCi (pat repl : List Char) : List Char → Nat → List Char
  | [], _ => []
  | s, 0 => s
  | c :: cs, fuel + 1 =>
    if !pat.isEmpty && ciStartsWith (c :: cs) pat then
      repl ++ replaceAllCi pat repl ((c :: cs).drop pat.length) fuel
    else c :: replaceAllCi pat repl cs fuel

/-- The named-entity table, in the source's insertion order (`&amp;` is
replaced first, which makes `&amp;lt;` decode to `<` over two passes). -/
def namedEntities : List (String × String) :=
  [("&amp;", "&"), ("&lt;", "<"), ("&gt;", ">"), ("&quot;", "\""), ("&#39;", "'"),
   ("&apos;", "'"), ("&nbsp;", " "), ("&#160;", " "), ("&mdash;", "—"), ("&ndash;", "–"),
   ("&hellip;", "…"), ("&copy;", "©"), ("&reg;", "®"), ("&trade;", "™")]

/-- Model of the JS builtin `String.fromCharCode`: the argument is reduced
modulo 2^16; a code unit that is not a Unicode scalar value (a lone
surrogate) falls back to `Char.ofNat`'s default character. -/
def jsFromCharCode (n : Nat) : Char :=
  Char.ofNat (n % 65536)

def digitsToNat (ds : List Char) : Nat :=
  ds.foldl (fun acc c => acc * 10 + (c.toNat - '0'.toNat)) 0

def isHexDigitJs (c : Char) : Bool :=
  ('0' ≤ c && c ≤ '9') || ('a' ≤ c.toLower && c.toLower ≤ 'f')

def hexDigitsToNat (ds : List Char) : Nat :=
  ds.foldl
    (fun acc c =>
      acc * 16 + (if '0' ≤ c && c ≤ '9' then c.toNat - '0'.toNat else c.toLower.toNat - 'a'.toNat + 10))
    0

/-- `decoded.replace(/&#(\d+);/g, (m, num) => String.fromCharCode(parseInt(num)))`. -/
def decodeDecEntities : List Char → Nat → List Char
  | [], _ => []
  | s, 0 => s
  | '&' :: '#' :: rest, fuel + 1 =>
    let digits := rest.takeWhile Char.isDigit
    if !digits.isEmpty then
      match rest.drop digits.length with
      | ';' :: rest2 => jsFromCharCode (digitsToNat digits) :: decodeDecEntities rest2 fuel
      | _ => '&' :: decodeDecEntities ('#' :: rest) fuel
    else '&' :: decodeDecEntities ('#' :: rest) fuel
  | c :: cs, fuel + 1 => c :: decodeDecEntities cs fuel

/-- `decoded.replace(/&#x([0-9a-f]+);/gi, (m, hex) => String.fromCharCode(parseInt(hex, 16)))`. -/
def decodeHexEntities : List Char → Nat → List Char
  | [], _ => []
  | s, 0 => s
  | '&' :: '#' :: x :: rest, fuel + 1 =>
    if x.toLower == 'x' then
      let digits := rest.takeWhile isHexDigitJs
      if !digits.isEmpty then
        match rest.drop digits.length with
        | ';' :: rest2 => jsFromCharCode (hexDigitsToNat digits) :: decodeHexEntities rest2 fuel
        | _ => '&' :: decodeHexEntities ('#' :: x :: rest) fuel
      else '&' :: decodeHexEntities ('#' :: x :: rest) fuel
    else '&' :: decodeHexEntities ('#' :: x :: rest) fuel
  | c :: cs, fuel + 1 => c :: decodeHexEntities cs fuel

/-- `decodeHtmlEntities(text)` from `src/utils/feedParser.js`. -/
def decodeHtmlEntities (s : List Char) : List Char :=
  let afterNamed :=
    namedEntities.foldl (fun acc p => replaceAllCi p.1.data p.2.data acc acc.length) s
  let afterDec := decodeDecEntities afterNamed afterNamed.length
  decodeHexEntities afterDec afterDec.length

/-- `cleaned.replace(/<[^>]+>/g, '')`. -/
def stripTags : List Char → Nat → List Char
  | [], _ => []
  | s, 0 => s
  | '<' :: rest, fuel + 1 =>
    let body := rest.takeWhile (fun c => c != '>')
    if !body.isEmpty then
      match rest.drop body.length with
      | '>' :: rest2 => stripTags rest2 fuel
      | _ => '<' :: stripTags rest fuel
    else '<' :: stripTags rest fuel
  | c :: cs, fuel + 1 => c :: stripTags cs fuel

/-- `cleaned.replace(/\s+/g, ' ')`. -/
def collapseWs : List Char → Nat → List Char
  | [], _ => []
  | s, 0 => s
  | c :: cs, fuel + 1 =>
    if jsIsSpace c then ' ' :: collapseWs (cs.dropWhile jsIsSpace) fuel
    else c :: collapseWs cs fuel

/-- `cleanText(text)` from `src/utils/feedParser.js`. -/
def cleanText (text : List Char) : List Char :=
  if text.isEmpty then []
  else
    let c1 := stripCdata text text.length
    let c2 := decodeHtmlEntities c1
    let c3 := stripTags c2 c2.length
    jsTrimList (collapseWs c3 c3.length)

/-! ## `src/utils/feedParser.js` — `extractFieldsFromXml` -/

/-- A dynamically-typed field value of the item object the extractor
builds: a string or (for `categories`) an array of strings. -/
inductive FieldVal where
  | str (v : String)
  | arr (vs : List String)
deriving DecidableEq

/-- JS truthiness of a field value: the empty string is falsy; an array —
even an empty one — is truthy. -/
def FieldVal.truthy : FieldVal → Bool
  | .str v => v != ""
  | .arr _ => true

/-- Truthiness of `item[field]` (absent = `undefined` = falsy). -/
def optTruthy (v : Option FieldVal) : Bool :=
  match v with
  | some fv => fv.truthy
  | none => false

def optIsArr (v : Option FieldVal) : Bool :=
  match v with
  | some (.arr _) => true
  | _ => false

/-- The dynamically keyed item object. -/
def ItemObj := List (String × FieldVal)

def itemGet (item : ItemObj) (field : String) : Option FieldVal :=
  (item.find? (·.1 == field)).map (·.2)

/-- Decompose a candidate path into the literal tag part and the optional
regex character class the source interpolates, as in
`guid[isPermaLink="true"]` (the bracketed characters behave as a class
matching a single character; the source's paths have nothing after `]`). -/
def pathTagSpec (path : String) : List Char × Option (List Char) :=
  match splitAtFirstSub ['['] path.data with
  | some (base, rest) =>
    match splitAtFirstSub [']'] rest with
    | some (cls, _) => (base, some cls)
    | none => (path.data, none)
  | none => (path.data, none)

/-- The `for (const path of paths)` loop body of `extractFieldsFromXml`
for one field, threading the current value of `item[field]`. -/
def extractFieldPaths (block : List Char) (field : String) :
    List String → Option FieldVal → Option FieldVal
  | [], current => current
  | path :: rest, current =>
    if optTruthy current then current
    else
      let current' :=
        if strContains path "/" then
          match path.splitOn "/" with
          | p0 :: p1 :: _ =>
            match firstTagMatch p0.data none block with
            | some parentM =>
              match firstTagMatch p1.data none parentM.inner with
              | some childM => some (.str (String.mk (cleanText childM.inner)))
              | none => current
            | none => current
          | _ => current
        else
          let spec := pathTagSpec path
          let cur1 :=
            match firstTagMatch spec.1 spec.2 block with
            | some m =>
              if field == "categories" && !optIsArr current then
                some (.arr ((findTagMatches spec.1 spec.2 block).map
                  (fun mm => String.mk (cleanText mm.inner))))
              else if !optTruthy current then
                some (.str (String.mk (cleanText m.inner)))
              else current
            | none => current
          if !optTruthy cur1 && field == "enclosure" then
            match findFirstOpenAttrs "enclosure".data block block.length with
            | some attrs =>
              match findAttrValue "url".data attrs with
              | some url => some (.str (String.mk url))
              | none => cur1
            | none => cur1
          else cur1
      extractFieldPaths block field rest current'

/-- `extractFieldsFromXml(xmlBlock, fieldMappings)` from
`src/utils/feedParser.js`, including the trailing defaulting of falsy
fields (`''`, or `[]` for `categories`). -/
def extractFieldsFromXml (block : List Char) (mappings : List (String × List String)) :
    ItemObj :=
  mappings.map (fun fp =>
    let v :=
      match extractFieldPaths block fp.1 fp.2 none with
      | some v => if v.truthy then v else (if fp.1 == "categories" then .arr [] else .str "")
      | none => if fp.1 == "categories" then .arr [] else .str ""
    (fp.1, v))

/-- The fields `normalizeItem` and the extractors read off the raw item
object.  `categoriesIsArray` records the `Array.isArray` test. -/
structure RawFeedItem where
  title : String := ""
  url : String := ""
  guid : String := ""
  pubDate : String := ""
  description : String := ""
  author : String := ""
  categoriesIsArray : Bool := true
  categories : List String := []
  enclosure : String := ""
deriving DecidableEq

/-- Read a string field of the item object (`undefined` reads as `''`,
which the downstream `||` defaults treat identically). -/
def objStr (item : ItemObj) (field : String) : String :=
  match itemGet item field with
  | some (.str v) => v
  | some (.arr _) => ""
  | none => ""

def toRawFeedItem (item : ItemObj) : RawFeedItem :=
  { title := objStr item "title"
    url := objStr item "url"
    guid := objStr item "guid"
    pubDate := objStr item "pubDate"
    description := objStr item "description"
    author := objStr item "author"
    categoriesIsArray := optIsArr (itemGet item "categories")
    categories :=
      match itemGet item "categories" with
      | some (.arr vs) => vs
      | _ => []
    enclosure := objStr item "enclosure" }

/-! ## `src/utils/feedParser.js` — `normalizeItem` and helpers -/

/-- A normalized feed item. -/
structure FeedItem where
  url : String
  title : String
  guid : String
  pubDate : String
  description : String
  author : String
  categories : List String
  enclosure : String
deriving DecidableEq

/-- Model of the WHATWG `new URL(s).href` builtin for absolute http(s)
URLs of the plain `scheme://host/path?query#fragment` shape used by the
feeds considered: the scheme and host are lower-cased and an empty path
serializes as `/`.  Further WHATWG normalization (default-port elision,
percent-encoding, dot-segment removal, IDNA) is not modeled — the inputs
considered do not exercise it.  `none` models the constructor throwing
(empty host). -/
def jsUrlHref (s : List Char) : Option String :=
  let schemeRest : Option (List Char × List Char) :=
    if ciStartsWith s "https://".data then some ("https://".data, s.drop 8)
    else if ciStartsWith s "http://".data then some ("http://".data, s.drop 7)
    else none
  match schemeRest with
  | none => none
  | some (scheme, rest) =>
    let authority := rest.takeWhile (fun c => c != '/' && c != '?' && c != '#')
    if authority.isEmpty then none
    else
      let tail := rest.drop authority.length
      let path := if tail.isEmpty then ['/'] else tail
      some (String.mk (scheme ++ authority.map Char.toLower ++ path))

/-- JS regex `.` (no flags) does not match line terminators. -/
def lineTerminator (c : Char) : Bool :=
  c == '\n' || c == '\r' || c == ' ' || c == ' '

/-- `s.replace(/^W(.+)C$/, '$1')` for wrapper characters `W`, `C`. -/
def stripWrap (w c : Char) (s : List Char) : List Char :=
  match s with
  | first :: rest =>
    if first == w ∧ rest.length ≥ 2 ∧ rest.getLast? = some c ∧
        (rest.dropLast.all (fun x => !lineTerminator x)) then
      rest.dropLast
    else s
  | [] => s

/-- `normalizeUrl(url)` from `src/utils/feedParser.js` (not to be confused
with the processor's own `normalizeUrl`). -/
def normalizeUrl (url : String) : String :=
  if url == "" then ""
  else
    let n0 := jsTrimList url.data
    let n1 := stripWrap '<' '>' n0
    let n2 := stripWrap '[' ']' n1
    let n3 :=
      if ciStartsWith n2 "http://".data || ciStartsWith n2 "https://".data then n2
      else "https://".data ++ n2
    match jsUrlHref n3 with
    | some href => href
    | none => String.mk n3

/-- A JSON value, for the JSON Feed branch. -/
inductive JsonVal where
  | null
  | bool (b : Bool)
  | num (n : Int)
  | str (s : String)
  | arr (xs : List JsonVal)
  | obj (fields : List (String × JsonVal))

def JsonVal.getField : JsonVal → String → Option JsonVal
  | .obj fields, k => (fields.find? (·.1 == k)).map (·.2)
  | _, _ => none

/-- JS truthiness of a JSON value. -/
def JsonVal.truthy : JsonVal → Bool
  | .null => false
  | .bool b => b
  | .num n => n != 0
  | .str s => s != ""
  | .arr _ => true
  | .obj _ => true

/-- Read an optional JSON value as a string; non-string values are modeled
as `''` (the feeds considered only carry strings in these positions). -/
def JsonVal.optAsStr : Option JsonVal → String
  | some (.str s) => s
  | _ => ""

/-- The runtime environment of one parse: the current clock
(`new Date().toISOString()`), the native `Date` string parser
(`none` models an invalid date), the local-timezone
`new Date(y, m, d, h, mi, s).toISOString()` constructor, and `JSON.parse`
(`none` models a thrown `SyntaxError`).  All four are JS builtins, modeled
as parameters. -/
structure JsEnv where
  nowISO : String
  parseDateISO : String → Option String
  dateFromPartsISO : Nat → Nat → Nat → Nat → Nat → Nat → String
  jsonParse : String → Option JsonVal

/-- Try the RFC-822 pattern
`(\w+),\s+(\d+)\s+(\w+)\s+(\d{4})\s+(\d{2}):(\d{2}):(\d{2})` exactly at
the start of `s`, returning the captures `(day, month, year, hour, minute,
second)` the source destructures. -/
def matchRfc822At (s : List Char) : Option (List Char × List Char × List Char × List Char × List Char × List Char) :=
  let w1 := s.takeWhile isWordCharJS
  if w1.isEmpty then none
  else
    match s.drop w1.length with
    | ',' :: r1 =>
      let sp1 := r1.takeWhile jsIsSpace
      if sp1.isEmpty then none
      else
        let r2 := r1.drop sp1.length
        let day := r2.takeWhile Char.isDigit
        if day.isEmpty then none
        else
          let r3 := r2.drop day.length
          let sp2 := r3.takeWhile jsIsSpace
          if sp2.isEmpty then none
          else
            let r4 := r3.drop sp2.length
            let month := r4.takeWhile isWordCharJS
            if month.isEmpty then none
            else
              let r5 := r4.drop month.length
              let sp3 := r5.takeWhile jsIsSpace
              if sp3.isEmpty then none
              else
                let r6 := r5.drop sp3.length
                let year := r6.take 4
                if year.length = 4 ∧ year.all Char.isDigit then
                  let r7 := r6.drop 4
                  let sp4 := r7.takeWhile jsIsSpace
                  if sp4.isEmpty then none
                  else
                    let r8 := r7.drop sp4.length
                    let hr := r8.take 2
                    if hr.length = 2 ∧ hr.all Char.isDigit then
                      match r8.drop 2 with
                      | ':' :: r9 =>
                        let mi := r9.take 2
                        if mi.length = 2 ∧ mi.all Char.isDigit then
                          match r9.drop 2 with
                          | ':' :: r10 =>
                            let sec := r10.take 2
                            if sec.length = 2 ∧ sec.all Char.isDigit then
                              some (day, month, year, hr, mi, sec)
                            else none
                          | _ => none
                        else none
                      | _ => none
                    else none
                else none
    | _ => none

/-- First match of the RFC-822 pattern anywhere in the input. -/
def findRfc822 : List Char → Option (List Char × List Char × List Char × List Char × List Char × List Char)
  | [] => none
  | c :: cs =>
    match matchRfc822At (c :: cs) with
    | some m => some m
    | none => findRfc822 cs

def monthNames : List String :=
  ["Jan", "Feb", "Mar", "Apr", "May", "Jun", "Jul", "Aug", "Sep", "Oct", "Nov", "Dec"]

/-- `normalizeDateString(dateStr)` from `src/utils/feedParser.js`. -/
def normalizeDateString (env : JsEnv) (dateStr : String) : String :=
  if dateStr == "" then env.nowISO
  else
    match env.parseDateISO dateStr with
    | some iso => iso
    | none =>
      match findRfc822 dateStr.data with
      | some (day, month, year, hr, mi, sec) =>
        match monthNames.findIdx? (fun m => (String.mk month).startsWith m) with
        | some monthIndex =>
          env.dateFromPartsISO (digitsToNat year) monthIndex (digitsToNat day)
            (digitsToNat hr) (digitsToNat mi) (digitsToNat sec)
        | none => env.nowISO
      | none => env.nowISO

/-- JS `String.prototype.lastIndexOf` for a single character
(`none` models `-1`): the greatest index holding `c`. -/
def lastIndexOfChar (c : Char) : List Char → Option Nat
  | [] => none
  | x :: xs =>
    match lastIndexOfChar c xs with
    | some i => some (i + 1)
    | none => if x == c then some 0 else none

/-- `truncateDescription(description, maxLength = 500)` from
`src/utils/feedParser.js`.  The float comparison
`lastSpace > maxLength * 0.8` is expressed as `5 * lastSpace > 4 * maxLength`,
which agrees with the double-precision comparison at the only call-site
value `maxLength = 500`. -/
def truncateDescription (description : String) (maxLength : Nat := 500) : String :=
  if description.data.length ≤ maxLength then description
  else
    let truncated := description.data.take maxLength
    match lastIndexOfChar ' ' truncated with
    | some lastSpace =>
      if 5 * lastSpace > 4 * maxLength then String.mk (truncated.take lastSpace ++ "...".data)
      else String.mk (truncated ++ "...".data)
    | none => String.mk (truncated ++ "...".data)

/-- `normalizeItem(item)` from `src/utils/feedParser.js`. -/
def normalizeItem (env : JsEnv) (item : RawFeedItem) : FeedItem :=
  { url := normalizeUrl item.url
    title := if item.title != "" then item.title else "Untitled"
    guid := if item.guid != "" then item.guid else if item.url != "" then item.url else ""
    pubDate := normalizeDateString env item.pubDate
    description := truncateDescription item.description
    author := item.author
    categories := if item.categoriesIsArray then item.categories else []
    enclosure := item.enclosure }

/-! ## `src/utils/feedParser.js` — the three extractors -/

/-- The `fieldMappings` literal of `parseRss2Items`. -/
def rss2Mappings : List (String × List String) :=
  [("title", ["title"]),
   ("url", ["link", "guid[isPermaLink=\"true\"]", "guid"]),
   ("guid", ["guid", "link"]),
   ("pubDate", ["pubDate", "dc:date", "published"]),
   ("description", ["description", "content:encoded", "summary"]),
   ("author", ["author", "dc:creator", "creator"]),
   ("categories", ["category"]),
   ("enclosure", ["enclosure"])]

/-- `parseRss2Items(xml)` from `src/utils/feedParser.js`. -/
def parseRss2Items (env : JsEnv) (xml : String) : List FeedItem :=
  (findTagMatches "item".data none xml.data).filterMap (fun m =>
    let item := toRawFeedItem (extractFieldsFromXml m.inner rss2Mappings)
    if item.url != "" then some (normalizeItem env item) else none)

/-- The `fieldMappings` literal of `parseAtomEntries`. -/
def atomMappings : List (String × List String) :=
  [("title", ["title"]),
   ("guid", ["id", "guid"]),
   ("pubDate", ["updated", "published", "modified"]),
   ("description", ["summary", "content", "subtitle"]),
   ("author", ["author/name", "author", "dc:creator"]),
   ("categories", ["category"])]

/-- The `for (const linkMatch of linkMatches)` loop of `parseAtomEntries`:
prefer `rel="alternate"`, otherwise the first `href` encountered. -/
def atomLinkUrl : List (List Char) → String → String
  | [], url => url
  | attrs :: rest, url =>
    let rel := match findAttrValue "rel".data attrs with
      | some v => String.mk v
      | none => "alternate"
    let href := match findAttrValue "href".data attrs with
      | some v => String.mk v
      | none => ""
    if href != "" && (rel == "alternate" || url == "") then
      if rel == "alternate" then href else atomLinkUrl rest href
    else atomLinkUrl rest url

/-- `parseAtomEntries(xml)` from `src/utils/feedParser.js`. -/
def parseAtomEntries (env : JsEnv) (xml : String) : List FeedItem :=
  (findTagMatches "entry".data none xml.data).filterMap (fun m =>
    let url := atomLinkUrl (findLinkAttrs m.inner) ""
    let raw := toRawFeedItem (extractFieldsFromXml m.inner atomMappings)
    let raw := { raw with url := if url != "" then url else raw.guid }
    if raw.url != "" then some (normalizeItem env raw) else none)

/-- The `fieldMappings` literal of `parseRss1Items`. -/
def rss1Mappings : List (String × List String) :=
  [("title", ["title", "dc:title"]),
   ("url", ["link", "rdf:about"]),
   ("guid", ["guid", "dc:identifier", "link"]),
   ("pubDate", ["dc:date", "pubDate", "dcterms:created"]),
   ("description", ["description", "dc:description", "content:encoded"]),
   ("author", ["dc:creator", "author"]),
   ("categories", ["dc:subject", "category"])]

/-- `parseRss1Items(xml)` from `src/utils/feedParser.js`, including the
`rdf:about` fallback searched in the whole match. -/
def parseRss1Items (env : JsEnv) (xml : String) : List FeedItem :=
  (findTagMatches "item".data none xml.data).filterMap (fun m =>
    let raw := toRawFeedItem (extractFieldsFromXml m.inner rss1Mappings)
    let raw :=
      if raw.url == "" then
        match findAttrValue "rdf:about".data m.full with
        | some v => { raw with url := String.mk v }
        | none => raw
      else raw
    if raw.url != "" then some (normalizeItem env raw) else none)

/-! ## `src/utils/feedParser.js` — `parseXmlFeed`, `parseJsonFeed`, `parseFeed` -/

/-- The final `items.filter` of `parseXmlFeed`: keep an item only if its
`url` was not `seen` yet. -/
def dedupByUrl : List FeedItem → List String → List FeedItem
  | [], _ => []
  | i :: rest, seen =>
    if seen.contains i.url then dedupByUrl rest seen
    else i :: dedupByUrl rest (i.url :: seen)

/-- The `isAtom` format marker of `parseXmlFeed`. -/
def feedIsAtom (xml : String) : Bool :=
  strContains xml "<feed" && strContains xml "xmlns=\"http://www.w3.org/2005/Atom\""

/-- The `isRss1` format marker of `parseXmlFeed`. -/
def feedIsRss1 (xml : String) : Bool :=
  strContains xml "<rdf:RDF" || strContains xml "xmlns=\"http://purl.org/rss/1.0/\""

/-- The `isRss2` format marker of `parseXmlFeed`. -/
def feedIsRss2 (xml : String) : Bool :=
  strContains xml "<rss" && strContains xml "version=\"2.0\""

/-- All three format-identifying markers are absent from the input. -/
def xmlFormatMarkersAbsent (xml : String) : Prop :=
  feedIsAtom xml = false ∧ feedIsRss1 xml = false ∧ feedIsRss2 xml = false

/-- `parseXmlFeed(xml)` from `src/utils/feedParser.js`. -/
def parseXmlFeed (env : JsEnv) (xml : String) : List FeedItem :=
  let items :=
    (if feedIsAtom xml || strContains xml "<entry" then parseAtomEntries env xml else []) ++
    (if feedIsRss2 xml || strContains xml "<item>" then parseRss2Items env xml else []) ++
    (if feedIsRss1 xml || strContains xml "<item " then parseRss1Items env xml else [])
  let items :=
    if items.isEmpty then
      parseRss2Items env xml ++ parseAtomEntries env xml ++ parseRss1Items env xml
    else items
  dedupByUrl items []

/-- JS `a || b` on strings (empty string is falsy). -/
def jsOrS (a b : String) : String :=
  if a != "" then a else b

/-- `parseJsonFeed(jsonStr)` from `src/utils/feedParser.js`.  The cases
where the source would throw inside its `try` (a `version` without
`.startsWith`, a non-iterable `items`) are modeled directly as the `[]`
the `catch` then returns.  Non-string JSON values in string positions are
modeled as absent (the feeds considered carry strings there). -/
def parseJsonFeed (env : JsEnv) (jsonStr : String) : List FeedItem :=
  match env.jsonParse jsonStr with
  | none => []
  | some feed =>
    match feed.getField "version" with
    | some (.str v) =>
      if v.startsWith "https://jsonfeed.org/version/" then
        let feedItems :=
          match feed.getField "items" with
          | some (.arr xs) => xs
          | _ => []
        feedItems.filterMap (fun item =>
          let raw : RawFeedItem :=
            { title := jsOrS (JsonVal.optAsStr (item.getField "title"))
                (JsonVal.optAsStr (item.getField "summary"))
              url := jsOrS (JsonVal.optAsStr (item.getField "url"))
                (jsOrS (JsonVal.optAsStr (item.getField "external_url"))
                  (JsonVal.optAsStr (item.getField "id")))
              guid := jsOrS (JsonVal.optAsStr (item.getField "id"))
                (JsonVal.optAsStr (item.getField "url"))
              pubDate := jsOrS (JsonVal.optAsStr (item.getField "date_published"))
                (JsonVal.optAsStr (item.getField "date_modified"))
              description := jsOrS (JsonVal.optAsStr (item.getField "content_html"))
                (jsOrS (JsonVal.optAsStr (item.getField "content_text"))
                  (JsonVal.optAsStr (item.getField "summary")))
              author := jsOrS
                (JsonVal.optAsStr ((item.getField "author").bind (·.getField "name")))
                (JsonVal.optAsStr
                  (((item.getField "authors").bind fun a =>
                      match a with
                      | .arr (x :: _) => some x
                      | _ => none).bind (·.getField "name")))
              categoriesIsArray :=
                match item.getField "tags" with
                | some (.arr _) => true
                | some t => !t.truthy
                | none => true
              categories :=
                match item.getField "tags" with
                | some (.arr xs) => xs.map (fun v => JsonVal.optAsStr (some v))
                | _ => []
              enclosure := JsonVal.optAsStr
                (((item.getField "attachments").bind fun a =>
                    match a with
                    | .arr (x :: _) => some x
                    | _ => none).bind (·.getField "url")) }
          if raw.url != "" then some (normalizeItem env raw) else none)
      else []
    | some _ => []
    | none => []

/-- `trimmed.startsWith('{')`. -/
def startsWithBrace (s : String) : Bool :=
  match s.data with
  | c :: _ => c == '\x7b'
  | [] => false

/-- `parseFeed(content, contentType = '')` from `src/utils/feedParser.js`. -/
def parseFeed (env : JsEnv) (content : String) (contentType : String := "") : List FeedItem :=
  let trimmed := jsTrim content
  if startsWithBrace trimmed || strContains contentType "json" then
    parseJsonFeed env trimmed
  else
    parseXmlFeed env trimmed

/-! ## Invariants and concrete evaluation inputs -/

/-- The reachable-state invariant of a delivery queue: a queue marked
`completed` has attempted every subscriber.  It holds for freshly created
queues (`status = pending`) and is preserved by `processQueueBatch`. -/
def QueueInv (q : Queue) : Prop :=
  q.status = .completed → q.subscribers.length ≤ q.sentTo.length

/-- A fixed runtime environment for concrete evaluations: the clock is
frozen and the native date parser rejects (the evaluated feeds carry no
dates). -/
def specEnv : JsEnv :=
  { nowISO := "2026-01-01T00:00:00.000Z"
    parseDateISO := fun _ => none
    dateFromPartsISO := fun _ _ _ _ _ _ => "1970-01-01T00:00:00.000Z"
    jsonParse := fun _ => none }

/-- An XML feed whose two RSS-2.0 items share one URL. -/
def xmlDupFeed : String :=
  "<item><link>https://a.com/x</link></item><item><link>https://a.com/x</link></item>"

/-- A marker-free feed whose tags are upper-case, so that none of the
secondary cues (`<entry`, `<item>`, `<item `) fires either: `parseXmlFeed`
reaches its final fallback, which runs the extractors in the order RSS2,
Atom, RSS1.  The RSS-2.0/RSS-1.0 item and the Atom entry share one URL but
carry different titles. -/
def xmlAmbiguousUpper : String :=
  "<ITEM><link>https://ex.com/a</link><title>rss2 version</title></ITEM><ENTRY><link href=\"https://ex.com/a\"/><title>atom version</title></ENTRY>"

/-- A marker-free feed in which all three secondary cues fire, with one
URL produced by all three extractors. -/
def xmlAmbiguousCues : String :=
  "<entry><link href=\"https://e.com/p\"/><title>atom version</title></entry><item><link>https://e.com/p</link><title>rss2 version</title></item><item x=\"1\"><link>https://e.com/p</link><title>rss2b</title></item>"

/-- 501 characters, no space. -/
def longDescNoSpace : String :=
  String.mk (List.replicate 501 'a')

/-- 501 characters with the last space of the first 500 at index 450. -/
def longDescWithSpace : String :=
  String.mk (List.replicate 450 'a' ++ [' '] ++ List.replicate 50 'b')

/-- An operation whose first attempt throws a non-retryable error. -/
def nonRetryableOp : Nat → Except JsError Unit :=
  fun _ => .error { message := "HTTP 400: Bad Request", status := 400 }

/-- The default retry configuration (`DEFAULT_RETRY_CONFIG`). -/
def defaultRetryConfig : RetryConfig := {}

/-- Sent-tracker prefixes as configured in `config.js`. -/
def sentConfigW : SentConfig :=
  { prefixNewsletterSent := "newsletter:sent:"
    prefixNewsletterSentUrl := "newsletter:sent:url:" }

/-- A store holding only the by-postId record. -/
def kvOnlyPostId : KVStore :=
  [("newsletter:sent:post1", "record")]

/-- A two-subscriber queue about to send its first batch. -/
def queueW : Queue :=
  { subscribers := ["a@example.com", "b@example.com"] }

def procConfigW : ProcConfig :=
  { batchSize := 2, batchWaitMinutes := 10 }

/-- A provider that always reports failure with no detail. -/
def provFailW : Nat → SendResult :=
  fun _ => { success := false }

/-- A provider that delivers one recipient per call. -/
def provOneW : Nat → SendResult :=
  fun _ => { success := true, totalSent := some (.num 1), totalFailed := some (.num 0) }

/-- The Gmail provider's response when every SMTP batch fails. -/
def gmailFailProvW : Nat → SendResult :=
  fun _ => GmailProvider.sendBatchEmail 0 (fun _ => false) ["a@example.com", "b@example.com"]

/-- A breaker with threshold 3 and a 60-second reset window, constructed
at time 0. -/
def cbW : CircuitBreaker := CircuitBreaker.make 3 60000 0

def cbErrW : JsError := { message := "ECONNRESET" }

/-! # Theorems -/

/-! ## Helper lemmas -/

theorem withRetryGo_count_le (fn : Nat → Except JsError α) (cfg : RetryConfig) :
    ∀ (fuel attempt : Nat) (lastErr : Option JsError) (inv : Nat),
      (withRetryGo fn cfg fuel attempt lastErr inv).2 ≤ inv + fuel := by
  intro fuel
  induction fuel with
  | zero => intro attempt lastErr inv; simp [withRetryGo]
  | succ n ih =>
    intro attempt lastErr inv
    unfold withRetryGo
    cases hfn : fn attempt with
    | ok r => simp
    | error e =>
      by_cases h1 : (attempt == cfg.maxAttempts) = true
      · simp [h1]
      · by_cases h2 : (!isRetryableError (some e) cfg) = true
        · simp [h1, h2]
        · simp only [h1, h2, if_false]
          exact le_trans (ih (attempt + 1) (some e) (inv + 1)) (by omega)

theorem withRetryGo_fail_attempts (fn : Nat → Except JsError α) (cfg : RetryConfig) :
    ∀ (fuel attempt : Nat) (lastErr : Option JsError) (inv : Nat),
      (withRetryGo fn cfg fuel attempt lastErr inv).1.success = false →
      (withRetryGo fn cfg fuel attempt lastErr inv).1.attempts = cfg.maxAttempts := by
  intro fuel
  induction fuel with
  | zero => intro attempt lastErr inv _; simp [withRetryGo]
  | succ n ih =>
    intro attempt lastErr inv h
    unfold withRetryGo at h ⊢
    cases hfn : fn attempt with
    | ok r => rw [hfn] at h; simp at h
    | error e =>
      rw [hfn] at h
      by_cases h1 : (attempt == cfg.maxAttempts) = true
      · simp [h1]
      · by_cases h2 : (!isRetryableError (some e) cfg) = true
        · simp [h1, h2]
        · simp only [h1, h2, if_false] at h ⊢
          exact ih (attempt + 1) (some e) (inv + 1) h

theorem withRetryGo_nonretryable_stops (fn : Nat → Except JsError α) (cfg : RetryConfig) :
    ∀ (d attempt : Nat) (lastErr : Option JsError) (inv fuel : Nat) (e : JsError),
      d + 1 ≤ fuel →
      attempt + d ≤ cfg.maxAttempts →
      fn (attempt + d) = .error e →
      isRetryableError (some e) cfg = false →
      (∀ k, attempt ≤ k → k < attempt + d →
        ∃ ek, fn k = .error ek ∧ isRetryableError (some ek) cfg = true) →
      (withRetryGo fn cfg fuel attempt lastErr inv).2 = inv + d + 1 := by
  intro d
  induction d with
  | zero =>
    intro attempt lastErr inv fuel e hfuel hle hfn hnr _
    obtain ⟨f, rfl⟩ : ∃ f, fuel = f + 1 := ⟨fuel - 1, by omega⟩
    rw [Nat.add_zero] at hfn hle
    unfold withRetryGo
    rw [hfn]
    by_cases h1 : (attempt == cfg.maxAttempts) = true
    · simp [h1]
    · simp [h1, hnr]
  | succ n ih =>
    intro attempt lastErr inv fuel e hfuel hle hfn hnr hpre
    obtain ⟨f, rfl⟩ : ∃ f, fuel = f + 1 := ⟨fuel - 1, by omega⟩
    obtain ⟨ek, hek, hretry⟩ := hpre attempt (Nat.le_refl _) (by omega)
    unfold withRetryGo
    rw [hek]
    have h1 : (attempt == cfg.maxAttempts) = false := by
      simp only [beq_eq_false_iff_ne, ne_eq]
      omega
    simp only [h1, hretry, Bool.not_true, Bool.false_eq_true, if_false]
    have := ih (attempt + 1) (some ek) (inv + 1) f e (by omega)
      (by omega) (by rw [show attempt + 1 + n = attempt + (n + 1) by omega]; exact hfn) hnr
      (fun k hk1 hk2 => hpre k (by omega) (by omega))
    omega

theorem execute_closed_failure (cb : CircuitBreaker) (now : Nat) (e : JsError)
    (h : cb.state = .closed) :
    (CircuitBreaker.execute cb now (Except.error e : Except JsError Unit)).1 =
      cb.onFailure now := by
  unfold CircuitBreaker.execute
  rw [if_neg (by simp [h])]
  simp [h]

theorem execFailures_cons (cb : CircuitBreaker) (t : Nat) (rest : List Nat) (e : JsError) :
    CircuitBreaker.execFailures cb (t :: rest) e =
      CircuitBreaker.execFailures
        ((CircuitBreaker.execute cb t (Except.error e : Except JsError Unit)).1) rest e := rfl

theorem onFailure_opens (cb : CircuitBreaker) (now : Nat)
    (h : cb.failureThreshold ≤ cb.failures + 1) :
    (cb.onFailure now).state = .opened := by
  unfold CircuitBreaker.onFailure
  simp [h]

theorem onFailure_below (cb : CircuitBreaker) (now : Nat)
    (h : ¬ cb.failureThreshold ≤ cb.failures + 1) :
    cb.onFailure now = { cb with failures := cb.failures + 1 } := by
  unfold CircuitBreaker.onFailure
  simp [h]

theorem execFailures_opens (times : List Nat) :
    ∀ (cb : CircuitBreaker) (e : JsError),
      cb.state = .closed → cb.failures + times.length = cb.failureThreshold →
      1 ≤ times.length →
      (CircuitBreaker.execFailures cb times e).state = .opened := by
  induction times with
  | nil => intro cb e _ _ h; simp at h
  | cons t rest ih =>
    intro cb e hclosed hsum _
    rw [execFailures_cons, execute_closed_failure cb t e hclosed]
    by_cases hrest : rest.length = 0
    · obtain rfl : rest = [] := List.length_eq_zero.mp hrest
      have : (cb.onFailure t).state = .opened :=
        onFailure_opens cb t (by simp at hsum; omega)
      simpa [CircuitBreaker.execFailures] using this
    · rw [onFailure_below cb t (by simp at hsum ⊢; omega)]
      exact ih _ e (by simpa using hclosed) (by simp at hsum ⊢; omega) (by omega)

/-- C7: after `failureThreshold` consecutive failures the breaker is OPEN;
while OPEN and before `resetTimeout` has elapsed, `execute` rejects without
invoking the wrapped function; once `nextAttempt` is reached the wrapped
function is invoked again (the HALF_OPEN trial); and a success in CLOSED or
HALF_OPEN resets the failure counter to 0. -/
theorem circuitBreaker_lifecycle :
    (∀ (cb : CircuitBreaker) (times : List Nat) (e : JsError),
      cb.state = .closed → cb.failures = 0 → 1 ≤ cb.failureThreshold →
      times.length = cb.failureThreshold →
      (CircuitBreaker.execFailures cb times e).state = .opened) ∧
    (∀ (α : Type) (cb : CircuitBreaker) (now : Nat) (r : Except JsError α),
      cb.state = .opened → now < cb.nextAttempt →
      CircuitBreaker.execute cb now r = (cb, .rejected, false)) ∧
    (∀ (α : Type) (cb : CircuitBreaker) (now : Nat) (r : Except JsError α),
      cb.state = .opened → cb.nextAttempt ≤ now →
      (CircuitBreaker.execute cb now r).2.2 = true) ∧
    (∀ (α : Type) (cb : CircuitBreaker) (now : Nat) (a : α),
      cb.state = .closed ∨ cb.state = .halfOpen →
      ((CircuitBreaker.execute cb now (Except.ok a)).1).failures = 0) := by
  refine ⟨?_, ?_, ?_, ?_⟩
  · intro cb times e hclosed hzero hthr hlen
    exact execFailures_opens times cb e hclosed (by omega) (by omega)
  · intro α cb now r hopen hlt
    unfold CircuitBreaker.execute
    rw [if_pos ⟨hopen, hlt⟩]
  · intro α cb now r hopen hle
    unfold CircuitBreaker.execute
    rw [if_neg (by simp [hopen]; omega)]
    cases r <;> simp
  · intro α cb now a hstate
    unfold CircuitBreaker.execute
    rw [if_neg (by rcases hstate with h | h <;> simp [h])]
    rcases hstate with h | h <;> simp [h, CircuitBreaker.onSuccess]

/-- Witness for C7 at a concrete breaker (threshold 3, reset 60000,
created at time 0) and three consecutive failures. -/
theorem circuitBreaker_lifecycle_witness :
    (CircuitBreaker.execFailures cbW [10, 20, 30] cbErrW).state = .opened ∧
    CircuitBreaker.execute (CircuitBreaker.execFailures cbW [10, 20, 30] cbErrW) 100
        (Except.error cbErrW : Except JsError Unit) =
      (CircuitBreaker.execFailures cbW [10, 20, 30] cbErrW, .rejected, false) ∧
    (CircuitBreaker.execute (CircuitBreaker.execFailures cbW [10, 20, 30] cbErrW) 60030
        (Except.error cbErrW : Except JsError Unit)).2.2 = true ∧
    ((CircuitBreaker.execute cbW 5 (Except.ok ())).1).failures = 0 := by
  refine ⟨?_, ?_, ?_, ?_⟩
  · exact circuitBreaker_lifecycle.1 cbW [10, 20, 30] cbErrW (by decide) (by decide)
      (by decide) (by decide)
  · exact circuitBreaker_lifecycle.2.1 Unit _ 100 _ (by decide) (by decide)
  · exact circuitBreaker_lifecycle.2.2.1 Unit _ 60030 _ (by decide) (by decide)
  · exact circuitBreaker_lifecycle.2.2.2 Unit cbW 5 () (Or.inl (by decide))

/-- C6: with `maxAttempts = 3`, `withRetry` invokes the operation at most
3 times whatever the failures are; and when the loop reaches an attempt
whose error is non-retryable (its message matches no configured substring
and neither its `status` nor its `response.status` is in the allow-list),
no further invocation happens — the total invocation count equals that
attempt number. -/
theorem withRetry_bound_and_nonretryable_abort (fn : Nat → Except JsError α)
    (cfg : RetryConfig) (h3 : cfg.maxAttempts = 3) :
    (withRetryCount fn cfg).2 ≤ 3 ∧
    (∀ a e, 1 ≤ a → a ≤ 3 → fn a = .error e → isRetryableError (some e) cfg = false →
      (∀ k, 1 ≤ k → k < a → ∃ ek, fn k = .error ek ∧ isRetryableError (some ek) cfg = true) →
      (withRetryCount fn cfg).2 = a) := by
  constructor
  · have := withRetryGo_count_le fn cfg cfg.maxAttempts 1 none 0
    unfold withRetryCount
    omega
  · intro a e ha1 ha3 hfn hnr hpre
    unfold withRetryCount
    have := withRetryGo_nonretryable_stops fn cfg (a - 1) 1 none 0 cfg.maxAttempts e
      (by omega) (by omega) (by rw [show 1 + (a - 1) = a by omega]; exact hfn) hnr
      (fun k hk1 hk2 => hpre k hk1 (by omega))
    omega

/-- Witness for C6: a first-attempt non-retryable error stops after one
invocation, within the bound of 3. -/
theorem withRetry_bound_and_nonretryable_abort_witness :
    (withRetryCount nonRetryableOp defaultRetryConfig).2 = 1 ∧
    (withRetryCount nonRetryableOp defaultRetryConfig).2 ≤ 3 := by
  constructor
  · exact (withRetry_bound_and_nonretryable_abort nonRetryableOp defaultRetryConfig rfl).2
      1 { message := "HTTP 400: Bad Request", status := 400 } (by omega) (by omega) rfl
      (by decide) (fun k hk1 hk2 => absurd (Nat.lt_of_lt_of_le hk2 hk1) (by omega))
  · exact (withRetry_bound_and_nonretryable_abort nonRetryableOp defaultRetryConfig rfl).1

/-- C10: whenever `withRetry` returns a failure envelope, its `attempts`
field is the configured `maxAttempts` — the budget — even when a
non-retryable error aborted the loop after fewer invocations. -/
theorem withRetry_failure_attempts_is_budget (fn : Nat → Except JsError α)
    (cfg : RetryConfig) (h : (withRetry fn cfg).success = false) :
    (withRetry fn cfg).attempts = cfg.maxAttempts :=
  withRetryGo_fail_attempts fn cfg cfg.maxAttempts 1 none 0 h

/-- Witness for C10: a non-retryable failure on attempt 1 is reported with
`attempts = 3` although the operation ran only once. -/
theorem withRetry_failure_attempts_is_budget_witness :
    (withRetry nonRetryableOp defaultRetryConfig).attempts = 3 ∧
    (withRetryCount nonRetryableOp defaultRetryConfig).2 = 1 := by
  constructor
  · exact withRetry_failure_attempts_is_budget nonRetryableOp defaultRetryConfig (by decide)
  · decide



/-- C1: `alreadySent(postId, normalizedUrl)` returns true iff both the
sent-by-postId record and the sent-by-normalizedUrl record exist in the
store; when only the postId key exists it returns false (redeliver); and
its KV trace consists of reads only (no writes). -/
theorem alreadySent_both_keys (config : SentConfig) (kv : KVStore) (postId normUrl : String) :
    (alreadySent config kv postId normUrl = true ↔
      (kvGet kv (config.prefixNewsletterSent ++ postId)).isSome = true ∧
      (kvGet kv (config.prefixNewsletterSentUrl ++ encodeURIComponent normUrl)).isSome = true) ∧
    ((kvGet kv (config.prefixNewsletterSent ++ postId)).isSome = true →
      kvGet kv (config.prefixNewsletterSentUrl ++ encodeURIComponent normUrl) = none →
      alreadySent config kv postId normUrl = false) ∧
    (∀ op ∈ (alreadySentTrace config kv postId normUrl).2, op.isWrite = false) := by
  unfold alreadySent alreadySentTrace
  refine ⟨?_, ?_, ?_⟩
  · simp
  · intro h1 h2
    simp [h1, h2]
  · intro op hop
    simp at hop
    rcases hop with rfl | rfl <;> rfl

/-- Witness for C1: a store holding only the by-postId record makes
`alreadySent` return false. -/
theorem alreadySent_both_keys_witness :
    alreadySent sentConfigW kvOnlyPostId "post1" "https://a.com/p" = false :=
  (alreadySent_both_keys sentConfigW kvOnlyPostId "post1" "https://a.com/p").2.1
    (by decide) (by decide)

/-! ## Delivery-queue processor claims -/

theorem withRetryGo_fail_of_all_error (fn : Nat → Except JsError α) (cfg : RetryConfig)
    (h : ∀ a, ∃ e, fn a = .error e) :
    ∀ (fuel attempt : Nat) (lastErr : Option JsError) (inv : Nat),
      ((withRetryGo fn cfg fuel attempt lastErr inv).1).success = false := by
  intro fuel
  induction fuel with
  | zero => intro attempt lastErr inv; simp [withRetryGo]
  | succ n ih =>
    intro attempt lastErr inv
    unfold withRetryGo
    obtain ⟨e, he⟩ := h attempt
    rw [he]
    by_cases h1 : (attempt == cfg.maxAttempts) = true
    · simp [h1]
    · by_cases h2 : (!isRetryableError (some e) cfg) = true
      · simp [h1, h2]
      · simp only [h1, h2, if_false]
        exact ih (attempt + 1) (some e) (inv + 1)

theorem sendOp_error (prov : Nat → SendResult) (a : Nat) (h : (prov a).success = false) :
    sendOp prov a = .error { message := jsOrStr (prov a).error "Failed to send emails" } := by
  unfold sendOp
  rw [if_neg (by simp [h])]

theorem withRetry_sendOp_fails (prov : Nat → SendResult)
    (h : ∀ a, (prov a).success = false) :
    (withRetry (sendOp prov) procRetryConfig).success = false :=
  withRetryGo_fail_of_all_error (sendOp prov) procRetryConfig
    (fun a => ⟨_, sendOp_error prov a (h a)⟩) _ _ _ _

theorem applyProviderCounts_shape (q : Queue) (nb : List String) (s : SendResult) :
    ∃ X Y, applyProviderCounts q nb s =
      { q with sentTo := q.sentTo ++ X, failedRecipients := q.failedRecipients ++ Y } := by
  unfold applyProviderCounts
  rcases hts : s.totalSent with _ | ts
  · exact ⟨nb, [], by simp⟩
  · by_cases hgt : ts.gtZero = true
    · rcases htf : s.totalFailed with _ | tf
      · exact ⟨nb.take ts.toIndex, [], by simp [hgt]⟩
      · by_cases htf2 : tf.gtZero = true
        · exact ⟨nb.take ts.toIndex, nb.drop ts.toIndex, by simp [hgt, htf2]⟩
        · exact ⟨nb.take ts.toIndex, [], by simp [hgt, htf2]⟩
    · rcases htf : s.totalFailed with _ | tf
      · exact ⟨[], [], by simp [hgt]⟩
      · by_cases htf2 : tf.gtZero = true
        · exact ⟨[], nb.drop ts.toIndex, by simp [hgt, htf2]⟩
        · exact ⟨[], [], by simp [hgt, htf2]⟩


theorem processQueueBatch_monotone_step (config : ProcConfig) (now : Nat)
    (prov : Nat → SendResult) (q : Queue) (hInv : QueueInv q) :
    q.sentTo.length ≤ (processQueueBatch config now prov q).queue.sentTo.length ∧
    QStatus.rank q.status ≤ QStatus.rank (processQueueBatch config now prov q).queue.status ∧
    QueueInv (processQueueBatch config now prov q).queue := by
  by_cases hw : q.nextSendAt ≠ 0 ∧ now < q.nextSendAt
  · simp only [processQueueBatch, if_pos hw]
    exact ⟨Nat.le_refl _, Nat.le_refl _, hInv⟩
  · by_cases hf : q.subscribers.length = 0 ∨ q.sentTo.length ≥ q.subscribers.length
    · simp only [processQueueBatch, if_neg hw, if_pos hf]
      exact ⟨Nat.le_refl _, Nat.le_refl _, hInv⟩
    · have hne : q.status ≠ QStatus.completed := by
        intro hc
        have := hInv hc
        push_neg at hf
        omega
      have hrank : QStatus.rank q.status ≤ 1 := by
        cases hst : q.status
        · decide
        · decide
        · exact absurd hst hne
      by_cases hb : (nextBatchOf config q).isEmpty = true
      · simp only [processQueueBatch, if_neg hw, if_neg hf, if_pos hb]
        exact ⟨Nat.le_refl _, Nat.le_refl _, hInv⟩
      · by_cases hr : (withRetry (sendOp prov) procRetryConfig).success = true
        · simp only [processQueueBatch, if_neg hw, if_neg hf, if_neg hb]
          rw [if_neg (by simp [hr])]
          obtain ⟨X, Y, hXY⟩ := applyProviderCounts_shape q (nextBatchOf config q)
            ((withRetry (sendOp prov) procRetryConfig).result.getD { success := true })
          rw [hXY]
          refine ⟨?_, ?_, ?_⟩
          · split_ifs <;> simp
          · split_ifs <;> refine Nat.le_trans hrank ?_ <;> simp [QStatus.rank]
          · unfold QueueInv
            split_ifs <;> intro hc <;> simp_all
        · simp only [processQueueBatch, if_neg hw, if_neg hf, if_neg hb]
          rw [if_pos (by simp [hr])]
          by_cases h3 : q.batchRetryCount + 1 ≥ 3
          · rw [if_pos h3]
            refine ⟨by simp, Nat.le_refl _, ?_⟩
            intro hc
            exact absurd hc hne
          · rw [if_neg h3]
            exact ⟨Nat.le_refl _, Nat.le_refl _, fun hc => absurd hc hne⟩


/-- C3: across any sequence of `processQueueBatch` invocations on a queue
satisfying the reachable-state invariant (in particular any freshly
discovered `pending` queue), `sentTo.length` is non-decreasing and
`status` never regresses along `pending → in-progress → completed`;
the invariant is preserved, so the same holds between any two points of
the sequence. -/
theorem processQueueRun_monotone (config : ProcConfig) :
    ∀ (inputs : List (Nat × (Nat → SendResult))) (q : Queue), QueueInv q →
      q.sentTo.length ≤ (processQueueRun config q inputs).sentTo.length ∧
      QStatus.rank q.status ≤ QStatus.rank (processQueueRun config q inputs).status ∧
      QueueInv (processQueueRun config q inputs) := by
  intro inputs
  induction inputs with
  | nil => intro q h; exact ⟨Nat.le_refl _, Nat.le_refl _, h⟩
  | cons p rest ih =>
    intro q h
    rcases p with ⟨pnow, pprov⟩
    obtain ⟨h1, h2, h3⟩ := processQueueBatch_monotone_step config pnow pprov q h
    obtain ⟨g1, g2, g3⟩ := ih (processQueueBatch config pnow pprov q).queue h3
    unfold processQueueRun
    exact ⟨Nat.le_trans h1 g1, Nat.le_trans h2 g2, g3⟩

/-- Witness for C3: a two-invocation run on a fresh pending queue. -/
theorem processQueueRun_monotone_witness :
    queueW.sentTo.length ≤
      (processQueueRun procConfigW queueW [(0, provOneW), (1000, provFailW)]).sentTo.length ∧
    QStatus.rank queueW.status ≤
      QStatus.rank (processQueueRun procConfigW queueW [(0, provOneW), (1000, provFailW)]).status := by
  obtain ⟨h1, h2, _⟩ := processQueueRun_monotone procConfigW [(0, provOneW), (1000, provFailW)]
    queueW (fun h => absurd h (by decide))
  exact ⟨h1, h2⟩

/-- C4: when the batch send fails after retries, `batchRetryCount` is
incremented; on reaching 3 the whole batch is appended both to `sentTo`
(marked attempted) and to `failedRecipients`, the counter resets to 0 and
the offset moves past the batch; below 3 the queue is left at the same
offset with `nextSendAt` pushed 5 minutes out, so the same batch is
retried on the next invocation. -/
theorem processQueueBatch_failure_branch (config : ProcConfig) (now : Nat)
    (prov : Nat → SendResult) (q : Queue)
    (hw : ¬(q.nextSendAt ≠ 0 ∧ now < q.nextSendAt))
    (hf : ¬(q.subscribers.length = 0 ∨ q.sentTo.length ≥ q.subscribers.length))
    (hb : ¬(nextBatchOf config q).isEmpty = true)
    (hfail : ∀ a, (prov a).success = false) :
    (processQueueBatch config now prov q).success = false ∧
    (processQueueBatch config now prov q).finalized = false ∧
    (q.batchRetryCount + 1 ≥ 3 →
      (processQueueBatch config now prov q).queue.sentTo = q.sentTo ++ nextBatchOf config q ∧
      (processQueueBatch config now prov q).queue.failedRecipients =
        q.failedRecipients ++ nextBatchOf config q ∧
      (processQueueBatch config now prov q).queue.batchRetryCount = 0 ∧
      (processQueueBatch config now prov q).queue.nextSendAt = q.nextSendAt) ∧
    (q.batchRetryCount + 1 < 3 →
      (processQueueBatch config now prov q).queue.sentTo = q.sentTo ∧
      (processQueueBatch config now prov q).queue.failedRecipients = q.failedRecipients ∧
      (processQueueBatch config now prov q).queue.batchRetryCount = q.batchRetryCount + 1 ∧
      (processQueueBatch config now prov q).queue.nextSendAt = now + 5 * 60 * 1000) := by
  have hr : (withRetry (sendOp prov) procRetryConfig).success = false :=
    withRetry_sendOp_fails prov hfail
  simp only [processQueueBatch, if_neg hw, if_neg hf, if_neg hb]
  rw [if_pos (by simp [hr])]
  by_cases h3 : q.batchRetryCount + 1 ≥ 3
  · rw [if_pos h3]
    exact ⟨rfl, rfl, fun _ => ⟨rfl, rfl, rfl, rfl⟩, fun hlt => absurd h3 (by omega)⟩
  · rw [if_neg h3]
    exact ⟨rfl, rfl, fun hge => absurd hge h3, fun _ => ⟨rfl, rfl, rfl, rfl⟩⟩

/-- Witness for C4: a first failure on a fresh queue leaves the offset in
place, sets `batchRetryCount` to 1 and schedules a retry 5 minutes out. -/
theorem processQueueBatch_failure_branch_witness :
    (processQueueBatch procConfigW 0 provFailW queueW).success = false ∧
    (processQueueBatch procConfigW 0 provFailW queueW).queue.batchRetryCount = 1 ∧
    (processQueueBatch procConfigW 0 provFailW queueW).queue.nextSendAt = 300000 ∧
    (processQueueBatch procConfigW 0 provFailW queueW).queue.sentTo = queueW.sentTo := by
  obtain ⟨h1, _, _, h4⟩ := processQueueBatch_failure_branch procConfigW 0 provFailW queueW
    (by decide) (by decide) (by decide) (fun a => rfl)
  obtain ⟨s1, s2, s3, s4⟩ := h4 (by decide)
  exact ⟨h1, s3, s4, s1⟩


theorem gmailBatchLoop_totalSent_nan (now : Nat) (es : Nat → Bool) :
    ∀ (batches : List (List String)) (i : Nat) (acc : GmailAcc),
      acc.totalSent = .nan → (gmailBatchLoop now es batches i acc).totalSent = .nan := by
  intro batches
  induction batches with
  | nil => intro i acc h; simpa [gmailBatchLoop] using h
  | cons b rest ih =>
    intro i acc h
    unfold gmailBatchLoop
    by_cases he : es i = true
    · rw [if_pos he]
      exact ih (i + 1) _ (by simp [h, JsNum.addOpt])
    · rw [if_neg he]
      by_cases hcb : (CircuitBreaker.execute acc.cb now (Except.ok (es i))).1.state = CBState.opened
      · rw [if_pos hcb]
        simpa using h
      · rw [if_neg hcb]
        exact ih (i + 1) _ (by simpa using h)

theorem gmailBatchLoop_totalFailed_nan (now : Nat) (es : Nat → Bool) :
    ∀ (batches : List (List String)) (i : Nat) (acc : GmailAcc),
      acc.totalFailed = .nan → (gmailBatchLoop now es batches i acc).totalFailed = .nan := by
  intro batches
  induction batches with
  | nil => intro i acc h; simpa [gmailBatchLoop] using h
  | cons b rest ih =>
    intro i acc h
    unfold gmailBatchLoop
    by_cases he : es i = true
    · rw [if_pos he]
      exact ih (i + 1) _ (by simpa using h)
    · rw [if_neg he]
      by_cases hcb : (CircuitBreaker.execute acc.cb now (Except.ok (es i))).1.state = CBState.opened
      · rw [if_pos hcb]
        simp [JsNum.addOpt]
      · rw [if_neg hcb]
        exact ih (i + 1) _ (by simp [JsNum.addOpt])

theorem gmail_totalSent_zero_not_success (now : Nat) (es : Nat → Bool)
    (recipients : List String) (hne : recipients ≠ [])
    (h0 : (GmailProvider.sendBatchEmail now es recipients).totalSent = some (.num 0)) :
    (GmailProvider.sendBatchEmail now es recipients).success = false := by
  obtain ⟨r, rs, rfl⟩ : ∃ r rs, recipients = r :: rs := by
    cases recipients with
    | nil => exact absurd rfl hne
    | cons r rs => exact ⟨r, rs, rfl⟩
  simp only [GmailProvider.sendBatchEmail, chunkList, List.length_cons, chunkListGo,
    gmailBatchLoop] at h0 ⊢
  by_cases he : es 0 = true
  · rw [if_pos he] at h0
    have := gmailBatchLoop_totalSent_nan now es (chunkListGo 50 (rs.drop 49) rs.length) 1
      { cb := (CircuitBreaker.execute (CircuitBreaker.make 3 60000 now) now (Except.ok (es 0))).1,
        totalSent := JsNum.addOpt (JsNum.num 0) none, totalFailed := .num 0 }
      (by simp [JsNum.addOpt])
    rw [this] at h0
    simp at h0
  · rw [if_neg he] at h0 ⊢
    by_cases hcb : (CircuitBreaker.execute (CircuitBreaker.make 3 60000 now) now
        (Except.ok (es 0))).1.state = CBState.opened
    · rw [if_pos hcb]
      simp [JsNum.addOpt, JsNum.eqZero]
    · rw [if_neg hcb]
      have := gmailBatchLoop_totalFailed_nan now es (chunkListGo 50 (rs.drop 49) rs.length) 1
        { cb := (CircuitBreaker.execute (CircuitBreaker.make 3 60000 now) now (Except.ok (es 0))).1,
          totalSent := .num 0, totalFailed := JsNum.addOpt (JsNum.num 0) none }
        (by simp [JsNum.addOpt])
      rw [this]
      simp [JsNum.eqZero]


/-- C5: when the provider (the Gmail provider's `sendBatchEmail`) reports
`totalSent = 0` for a nonempty batch, its `success` field is necessarily
false, so `processQueueBatch` takes the failure branch: `batchRetryCount`
is incremented (and reset to 0 only upon reaching 3), and no recipient of
the batch is recorded as successfully sent — every entry added to `sentTo`
is simultaneously recorded in `failedRecipients`. -/
theorem processQueueBatch_totalSent_zero_failure (config : ProcConfig) (now : Nat)
    (prov : Nat → SendResult) (q : Queue) (gnow : Nat → Nat) (genv : Nat → Nat → Bool)
    (hw : ¬(q.nextSendAt ≠ 0 ∧ now < q.nextSendAt))
    (hf : ¬(q.subscribers.length = 0 ∨ q.sentTo.length ≥ q.subscribers.length))
    (hb : ¬(nextBatchOf config q).isEmpty = true)
    (hProv : ∀ a, prov a = GmailProvider.sendBatchEmail (gnow a) (genv a) (nextBatchOf config q))
    (hZero : ∀ a, (prov a).totalSent = some (JsNum.num 0)) :
    (processQueueBatch config now prov q).success = false ∧
    (processQueueBatch config now prov q).queue.batchRetryCount =
      (if q.batchRetryCount + 1 ≥ 3 then 0 else q.batchRetryCount + 1) ∧
    (∀ x ∈ (processQueueBatch config now prov q).queue.sentTo,
      x ∈ q.sentTo ∨ x ∈ (processQueueBatch config now prov q).queue.failedRecipients) := by
  have hne : nextBatchOf config q ≠ [] := by
    intro h
    exact hb (by simp [h])
  have hfail : ∀ a, (prov a).success = false := by
    intro a
    rw [hProv a]
    exact gmail_totalSent_zero_not_success (gnow a) (genv a) _ hne
      (by rw [← hProv a]; exact hZero a)
  have hr : (withRetry (sendOp prov) procRetryConfig).success = false :=
    withRetry_sendOp_fails prov hfail
  simp only [processQueueBatch, if_neg hw, if_neg hf, if_neg hb]
  rw [if_pos (by simp [hr])]
  by_cases h3 : q.batchRetryCount + 1 ≥ 3
  · rw [if_pos h3, if_pos h3]
    refine ⟨rfl, rfl, ?_⟩
    intro x hx
    simp only [List.mem_append] at hx
    rcases hx with hx | hx
    · exact Or.inl hx
    · exact Or.inr (by simp [hx])
  · rw [if_neg h3, if_neg h3]
    exact ⟨rfl, rfl, fun x hx => Or.inl hx⟩

/-- Witness for C5: a 2-recipient batch for which the Gmail provider
reports `{totalSent: 0}` (all SMTP sub-batches fail) makes the processor
increment `batchRetryCount` from 0 to 1 and record no successful send. -/
theorem processQueueBatch_totalSent_zero_failure_witness :
    (processQueueBatch procConfigW 0 gmailFailProvW queueW).success = false ∧
    (processQueueBatch procConfigW 0 gmailFailProvW queueW).queue.batchRetryCount = 1 := by
  obtain ⟨h1, h2, _⟩ := processQueueBatch_totalSent_zero_failure procConfigW 0 gmailFailProvW
    queueW (fun _ => 0) (fun _ => fun _ => false)
    (by decide) (by decide) (by decide) (fun _ => rfl) (fun _ => by simp only [gmailFailProvW]; decide)
  refine ⟨h1, ?_⟩
  rw [h2]
  decide



/-! ## Feed parser claims -/

theorem dedupByUrl_nodup_aux (l : List FeedItem) :
    ∀ (seen : List String),
      ((dedupByUrl l seen).map (fun i => i.url)).Nodup ∧
      (∀ u ∈ (dedupByUrl l seen).map (fun i => i.url), seen.contains u = false) := by
  induction l with
  | nil => intro seen; simp [dedupByUrl]
  | cons i rest ih =>
    intro seen
    unfold dedupByUrl
    by_cases hc : seen.contains i.url = true
    · rw [if_pos hc]
      exact ih seen
    · rw [if_neg hc]
      obtain ⟨hnd, hmem⟩ := ih (i.url :: seen)
      constructor
      · simp only [List.map_cons, List.nodup_cons]
        refine ⟨?_, hnd⟩
        intro hin
        have := hmem i.url hin
        simp at this
      · intro u hu
        simp only [List.map_cons, List.mem_cons] at hu
        rcases hu with rfl | hu
        · simpa using hc
        · have := hmem u hu
          simp only [List.contains_cons, Bool.or_eq_false_iff] at this
          exact this.2

/-- C8: on the XML path (content not starting with a brace and no JSON
content type), `parseFeed` returns at most one item per URL: no two items
of the result share the same `url`. -/
theorem parseFeed_dedup_by_url (env : JsEnv) (content contentType : String)
    (h1 : startsWithBrace (jsTrim content) = false)
    (h2 : strContains contentType "json" = false) :
    ((parseFeed env content contentType).map (fun i => i.url)).Nodup := by
  unfold parseFeed
  rw [if_neg (by simp [h1, h2])]
  unfold parseXmlFeed
  exact (dedupByUrl_nodup_aux _ []).1

/-- Witness for C8: a feed with two RSS items sharing one URL parses to a
single item. -/
theorem parseFeed_dedup_by_url_witness :
    ((parseFeed specEnv xmlDupFeed "").map (fun i => i.url)).Nodup ∧
    (parseFeed specEnv xmlDupFeed "").length = 1 := by
  refine ⟨parseFeed_dedup_by_url specEnv xmlDupFeed "" (by decide) (by decide), by decide⟩


theorem lastIndexOfChar_lt (c : Char) :
    ∀ (s : List Char) (i : Nat), lastIndexOfChar c s = some i → i < s.length := by
  intro s
  induction s with
  | nil => intro i h; simp [lastIndexOfChar] at h
  | cons x xs ih =>
    intro i h
    unfold lastIndexOfChar at h
    cases hx : lastIndexOfChar c xs with
    | some j =>
      rw [hx] at h
      have := ih j hx
      simp only [Option.some.injEq] at h
      simp
      omega
    | none =>
      rw [hx] at h
      by_cases hc : (x == c) = true
      · simp only [hc, if_true, Option.some.injEq] at h
        simp
        omega
      · simp [hc] at h

set_option maxRecDepth 40000 in
/-- Counterexample for C9 as stated: a 501-character description with no
space truncates to 503 characters (more than 500, and not at a word
boundary) and the appended suffix is the three ASCII periods `...`, not
`…` — the character `…` does not occur in the result at all. -/
theorem truncateDescription_counterexample :
    (truncateDescription longDescNoSpace).data = List.replicate 500 'a' ++ "...".data ∧
    500 < (truncateDescription longDescNoSpace).data.length ∧
    (truncateDescription longDescNoSpace).data.contains '…' = false := by
  refine ⟨by decide, by decide, by decide⟩

/-- C9 as amended: descriptions of at most 500 characters pass through
unchanged; longer ones are cut to a prefix of at most 500 characters with
ASCII `...` appended (so the result has at most 503 characters), and the
cut happens at the last space of the first 500 characters only when that
space lies past position 400 (80% of the limit). -/
theorem truncateDescription_amended (d : String) :
    (d.data.length ≤ 500 → truncateDescription d = d) ∧
    (500 < d.data.length →
      ((truncateDescription d).data.length ≤ 503 ∧
        ∃ n ≤ 500, (truncateDescription d).data = d.data.take n ++ "...".data) ∧
      (∀ i, lastIndexOfChar ' ' (d.data.take 500) = some i → 400 < i →
        (truncateDescription d).data = d.data.take i ++ "...".data)) := by
  have h3 : "...".data.length = 3 := by decide
  constructor
  · intro h
    unfold truncateDescription
    rw [if_pos h]
  · intro h
    unfold truncateDescription
    rw [if_neg (by omega)]
    constructor
    · cases hls : lastIndexOfChar ' ' (d.data.take 500) with
      | none =>
        simp only [hls]
        refine ⟨?_, 500, Nat.le_refl _, rfl⟩
        rw [List.length_append, h3, List.length_take]
        omega
      | some i =>
        have hilt : i < 500 := by
          have := lastIndexOfChar_lt ' ' (d.data.take 500) i hls
          rw [List.length_take] at this
          omega
        simp only [hls]
        by_cases hgt : 5 * i > 4 * 500
        · rw [if_pos hgt]
          refine ⟨?_, i, by omega, ?_⟩
          · rw [List.length_append, h3, List.take_take, List.length_take]
            omega
          · rw [List.take_take, Nat.min_eq_left (by omega)]
        · rw [if_neg hgt]
          refine ⟨?_, 500, Nat.le_refl _, rfl⟩
          rw [List.length_append, h3, List.length_take]
          omega
    · intro i hi hgt
      have hilt : i < 500 := by
        have := lastIndexOfChar_lt ' ' (d.data.take 500) i hi
        rw [List.length_take] at this
        omega
      simp only [hi]
      rw [if_pos (by omega)]
      rw [List.take_take, Nat.min_eq_left (by omega)]

set_option maxRecDepth 40000 in
/-- Witness for C9 (amended): a 501-character description whose last space
within the first 500 characters sits at index 450 is cut at that space. -/
theorem truncateDescription_amended_witness :
    (truncateDescription longDescWithSpace).data =
      longDescWithSpace.data.take 450 ++ "...".data :=
  ((truncateDescription_amended longDescWithSpace).2 (by decide)).2 450 (by decide) (by decide)


theorem dedupByUrl_find? (u : String) :
    ∀ (l : List FeedItem) (seen : List String), seen.contains u = false →
      (dedupByUrl l seen).find? (fun i => i.url == u) = l.find? (fun i => i.url == u) := by
  intro l
  induction l with
  | nil => intro seen h; rfl
  | cons i rest ih =>
    intro seen h
    unfold dedupByUrl
    by_cases hc : seen.contains i.url = true
    · rw [if_pos hc]
      have hne : (i.url == u) = false := by
        by_cases hb : (i.url == u) = true
        · have hequ : i.url = u := by simpa using hb
          rw [hequ] at hc
          rw [hc] at h
          exact absurd h (by simp)
        · simpa using hb
      rw [List.find?_cons_of_neg _ (by simp [hne])]
      exact ih seen h
    · rw [if_neg hc]
      by_cases hb : (i.url == u) = true
      · rw [@List.find?_cons_of_pos _ (fun j => j.url == u) i (dedupByUrl rest (i.url :: seen)) hb,
          @List.find?_cons_of_pos _ (fun j => j.url == u) i rest hb]
      · rw [List.find?_cons_of_neg _ (by simp [hb]),
          List.find?_cons_of_neg _ (by simp [hb])]
        apply ih
        simp only [List.contains_cons, Bool.or_eq_false_iff]
        refine ⟨?_, h⟩
        by_cases hbu : (u == i.url) = true
        · have hequ : u = i.url := by simpa using hbu
          exact absurd (by simp [hequ] : (i.url == u) = true) hb
        · simpa using hbu

/-- C2 as amended: with all three format markers absent, when every
secondary cue (`<entry`, `<item>`, `<item `) is present the three
extractors contribute in the order Atom, RSS2, RSS1 and the first (Atom)
occurrence of a shared URL wins the dedup; but when no cue is present the
final fallback reruns them in the order RSS2, Atom, RSS1, so there the
RSS2-extracted item wins instead. -/
theorem parseXmlFeed_priority_amended (env : JsEnv) (xml : String)
    (hm : xmlFormatMarkersAbsent xml) :
    ((strContains xml "<entry" = true ∧ strContains xml "<item>" = true ∧
        strContains xml "<item " = true) →
      parseXmlFeed env xml =
        dedupByUrl
          (parseAtomEntries env xml ++ parseRss2Items env xml ++ parseRss1Items env xml) [] ∧
      (∀ u, (∃ i ∈ parseAtomEntries env xml, i.url = u) →
        (parseXmlFeed env xml).find? (fun i => i.url == u) =
          (parseAtomEntries env xml).find? (fun i => i.url == u))) ∧
    ((strContains xml "<entry" = false ∧ strContains xml "<item>" = false ∧
        strContains xml "<item " = false) →
      parseXmlFeed env xml =
        dedupByUrl
          (parseRss2Items env xml ++ parseAtomEntries env xml ++ parseRss1Items env xml) []) := by
  obtain ⟨hA, hR1, hR2⟩ := hm
  constructor
  · rintro ⟨c1, c2, c3⟩
    have heq : parseXmlFeed env xml =
        dedupByUrl
          (parseAtomEntries env xml ++ parseRss2Items env xml ++ parseRss1Items env xml) [] := by
      unfold parseXmlFeed
      rw [hA, hR1, hR2, c1, c2, c3]
      simp only [Bool.false_or, if_true]
      by_cases hemp :
          (parseAtomEntries env xml ++ parseRss2Items env xml ++ parseRss1Items env xml).isEmpty = true
      · rw [if_pos hemp]
        simp only [List.isEmpty_iff, List.append_eq_nil] at hemp
        obtain ⟨⟨ha, hb⟩, hc⟩ := hemp
        rw [ha, hb, hc]
      · rw [if_neg hemp]
    refine ⟨heq, ?_⟩
    intro u hu
    rw [heq]
    rw [dedupByUrl_find? u _ [] (by simp)]
    have hsome : ((parseAtomEntries env xml).find? (fun i => i.url == u)).isSome = true := by
      rw [List.find?_isSome]
      obtain ⟨i, hmem, hurl⟩ := hu
      exact ⟨i, hmem, by simp [hurl]⟩
    cases hfa : (parseAtomEntries env xml).find? (fun i => i.url == u) with
    | none => rw [hfa] at hsome; simp at hsome
    | some x =>
      rw [List.find?_append, List.find?_append, hfa]
      rfl
  · rintro ⟨c1, c2, c3⟩
    unfold parseXmlFeed
    rw [hA, hR1, hR2, c1, c2, c3]
    simp


set_option maxRecDepth 40000 in
/-- Counterexample to C2 as stated: `xmlAmbiguousUpper` has no
format-identifying markers, all three extractors fire on it and the Atom
extractor produces an item for `https://ex.com/a` titled "atom version" —
yet `parseFeed` returns the RSS2-extracted item ("rss2 version") for that
URL, because the final fallback concatenates in the order RSS2, Atom,
RSS1. -/
theorem parseFeed_atom_priority_counterexample :
    xmlFormatMarkersAbsent xmlAmbiguousUpper ∧
    (parseAtomEntries specEnv xmlAmbiguousUpper ≠ [] ∧
      parseRss2Items specEnv xmlAmbiguousUpper ≠ [] ∧
      parseRss1Items specEnv xmlAmbiguousUpper ≠ []) ∧
    (parseAtomEntries specEnv xmlAmbiguousUpper).map (fun i => (i.url, i.title)) =
      [("https://ex.com/a", "atom version")] ∧
    (parseFeed specEnv xmlAmbiguousUpper "").map (fun i => (i.url, i.title)) =
      [("https://ex.com/a", "rss2 version")] ∧
    (parseFeed specEnv xmlAmbiguousUpper "").find? (fun i => i.url == "https://ex.com/a") ≠
      (parseAtomEntries specEnv xmlAmbiguousUpper).find?
        (fun i => i.url == "https://ex.com/a") := by
  refine ⟨⟨by decide, by decide, by decide⟩, ⟨by decide, by decide, by decide⟩,
    by decide, by decide, by decide⟩

set_option maxRecDepth 40000 in
/-- Witness for C2 (amended) at a cue-bearing marker-free feed: the item
returned for the shared URL is the Atom-extracted one. -/
theorem parseXmlFeed_priority_amended_witness :
    (parseXmlFeed specEnv xmlAmbiguousCues).find? (fun i => i.url == "https://e.com/p") =
      (parseAtomEntries specEnv xmlAmbiguousCues).find? (fun i => i.url == "https://e.com/p") ∧
    ((parseXmlFeed specEnv xmlAmbiguousCues).map (fun i => i.title) = ["atom version"]) := by
  refine ⟨((parseXmlFeed_priority_amended specEnv xmlAmbiguousCues
    ⟨by decide, by decide, by decide⟩).1 ⟨by decide, by decide, by decide⟩).2
      "https://e.com/p" (by decide), by decide⟩


end Newsletter
